import Mathlib

/-!
Verification of the `hobby-cluster` Ansible inventory plugin
(`src/plugins/inventory/cluster.py`) against its natural-language
specification.

The Python source is shallowly embedded below:
* `NetworkManager` (spec: AddressAllocator) — IPv4 host-address allocation.
  Addresses are modelled as `Nat` (the numeric value of the IPv4 address);
  a network `base/p` has usable host addresses `base+1 .. base+2^(32-p)-2`,
  which is exactly what Python's `IPv4Network.hosts()` yields for p ≤ 30.
* `ValueManager` (spec: FairValueAllocator) — usage-count based fair choice.
  Python's `Counter` built from a dict comprehension keeps one entry per
  distinct value, in first-occurrence order (`firstDedup` below); `min` with
  a key returns the first item attaining the minimal count.
* `HostTimeAssigner` (spec: MaintenanceSlotAllocator) — times-of-day are
  modelled as minutes since midnight; `strftime("%H:%M")` is `formatHHMM`.
  The source's `_interleave_groups` loops forever when some group count is
  not positive; the embedding returns `none` (error `diverged`) in exactly
  those unreachable-by-the-claims situations, via a fuel bound that is
  sufficient whenever every count is ≥ 1.
* `InventoryModule.parse` (spec: Reconciler) — the full reconciliation pass.
  The Ansible inventory sink is modelled as the chronological list of
  operations (`InvOp`) issued to it; exceptions abort the pass, returning
  the operations already issued together with the error (`PassSt × Option
  Err`), which faithfully reflects that already-performed `add_host` /
  `set_variable` side effects are not rolled back.
-/

/-- Every abort condition of the source, by site.  The source raises
`AnsibleError` / `ValueError` / `RuntimeError`; only which site fires
matters for the claims, so errors carry no message payload. -/
inductive Err where
  | nodesEmpty | tokenMissing | timesMissing | roleMissing | typeMissing
  | imageMissing | numMissing | noControl | noWorker | quorum
  | volEntryName | volEntrySize
  | shrink | sizeParse
  | timeFormat | timeOrder | noHosts | windowTooSmall | diverged
  | unknownGroup | slotsExhausted
  | ipOutOfRange | ipAlreadyReserved | poolExhausted
  | emptyValues | valueNotFound
  | noPublicNet | reserveConflict | internalBug
deriving DecidableEq

deriving instance DecidableEq for Except

/-! ## NetworkManager (`cluster.py` lines 18–88) -/

/-- State of `NetworkManager`: the usable host range of `self._network`,
the `self._assigned` set, and the resume point of the generator
`self._host_ip_generator` (`self._ip_iter`). -/
structure NetworkManager where
  hostMin : Nat
  hostMax : Nat
  assigned : List Nat
  pos : Nat
deriving DecidableEq

/-- `NetworkManager.__init__(network)` for the network `base/prefixLen`
(prefixLen ≤ 30): `hosts()` runs from `base+1` to `base+2^(32-prefixLen)-2`. -/
def mkNetworkManager (base prefixLen : Nat) : NetworkManager :=
  { hostMin := base + 1
    hostMax := base + 2 ^ (32 - prefixLen) - 2
    assigned := []
    pos := base + 1 }

/-- The generator loop inside `get_next_ip`: scan candidates `p, p+1, …`
up to `hostMax`, skipping members of `assigned`.  `fuel` bounds the scan
by the number of remaining candidates. -/
def findFreeIp (assigned : List Nat) (hostMax : Nat) : Nat → Nat → Option Nat
  | _, 0 => none
  | p, fuel + 1 =>
    if hostMax < p then none
    else if p ∈ assigned then findFreeIp assigned hostMax (p + 1) fuel
    else some p

/-- `NetworkManager.get_next_ip` (lines 54–71): next unassigned host address
in ascending order; `none` models `RuntimeError("No available IPs left …")`. -/
def NetworkManager.getNextIp (nm : NetworkManager) : Option (Nat × NetworkManager) :=
  match findFreeIp nm.assigned nm.hostMax nm.pos (nm.hostMax + 1 - nm.pos) with
  | none => none
  | some ip =>
    some (ip, { nm with assigned := ip :: nm.assigned, pos := ip + 1 })

/-- `NetworkManager.reserve_ip` (lines 73–88): fails outside the usable host
range or when already assigned. -/
def NetworkManager.reserveIp (nm : NetworkManager) (ip : Nat) : Except Err NetworkManager :=
  if ip < nm.hostMin ∨ nm.hostMax < ip then .error .ipOutOfRange
  else if ip ∈ nm.assigned then .error .ipAlreadyReserved
  else .ok { nm with assigned := ip :: nm.assigned }

/-- The list of addresses produced by `n` consecutive `get_next_ip` calls
(stopping early on pool exhaustion). -/
def NetworkManager.nextN : NetworkManager → Nat → List Nat
  | _, 0 => []
  | nm, n + 1 =>
    match nm.getNextIp with
    | none => []
    | some (ip, nm') => ip :: nm'.nextN n

/-! ## ValueManager (`cluster.py` lines 90–186) -/

/-- First-occurrence deduplication: the key order of
`Counter({value: 0 for value in self._values})` — a Python dict keeps the
first occurrence of each key, in insertion order. -/
def firstDedupAux (seen : List String) : List String → List String
  | [] => []
  | a :: l => if a ∈ seen then firstDedupAux seen l else a :: firstDedupAux (a :: seen) l

def firstDedup (l : List String) : List String := firstDedupAux [] l

/-- State of `ValueManager`: `self._values` and the `Counter` items list
(key, count) in insertion order. -/
structure ValueManager where
  values : List String
  counts : List (String × Nat)
deriving DecidableEq

/-- `ValueManager.__init__` (lines 103–118). -/
def ValueManager.init (vs : List String) : ValueManager :=
  ⟨vs, (firstDedup vs).map (fun v => (v, 0))⟩

/-- The scan performed by Python's `min(items, key=λx. x[1])`: keep the
current minimum, replacing it only on a strictly smaller count, so the
first item attaining the minimum wins. -/
def minItemGo : (String × Nat) → List (String × Nat) → String × Nat
  | p, [] => p
  | p, q :: l => minItemGo (if q.2 < p.2 then q else p) l

def minItem : List (String × Nat) → Option (String × Nat)
  | [] => none
  | p :: l => some (minItemGo p l)

/-- `self._counts[key] += 1` on a `Counter`: increment the (unique) entry
with that key — modelled as incrementing the first such entry. -/
def bumpFirst (v : String) : List (String × Nat) → List (String × Nat)
  | [] => []
  | p :: l => if p.1 = v then (p.1, p.2 + 1) :: l else p :: bumpFirst v l

def lookupKey {α : Type} (k : String) : List (String × α) → Option α
  | [] => none
  | p :: l => if p.1 = k then some p.2 else lookupKey k l

/-- `ValueManager.get_next` (lines 136–160): `min` raises `ValueError` on an
empty sequence (modelled `emptyValues`); otherwise return the first
minimal-count value and increment its count. -/
def ValueManager.getNext (vm : ValueManager) : Except Err (String × ValueManager) :=
  match minItem vm.counts with
  | none => .error .emptyValues
  | some p => .ok (p.1, ⟨vm.values, bumpFirst p.1 vm.counts⟩)

/-- `ValueManager.increment` (lines 162–186). -/
def ValueManager.increment (vm : ValueManager) (item : String) : Except Err ValueManager :=
  if item ∈ vm.values then .ok ⟨vm.values, bumpFirst item vm.counts⟩
  else .error .valueNotFound

/-- Outputs of `n` consecutive `get_next` calls. -/
def nextSeq : ValueManager → Nat → List String
  | _, 0 => []
  | vm, n + 1 =>
    match vm.getNext with
    | .error _ => []
    | .ok (v, vm') => v :: nextSeq vm' n

/-- State after `n` consecutive `get_next` calls. -/
def nextIterVM : ValueManager → Nat → ValueManager
  | vm, 0 => vm
  | vm, n + 1 =>
    match vm.getNext with
    | .error _ => vm
    | .ok (_, vm') => nextIterVM vm' n

/-- Balance invariant: all counts lie in `{q, q+1}` for some `q`. -/
def BalM (l : List (String × Nat)) : Prop :=
  ∃ q, ∀ p ∈ l, p.2 = q ∨ p.2 = q + 1

/-! ## String and time helpers

`datetime.strptime(t, "%H:%M")` / `strftime("%H:%M")` are modelled over
minutes-since-midnight; `int(...)` over decimal digit strings.  The helpers
are written by structural recursion over the character list so that
concrete runs reduce inside the kernel. -/

def digitsToNatAux : List Char → Nat → Option Nat
  | [], acc => some acc
  | c :: cs, acc =>
    if c.isDigit then digitsToNatAux cs (acc * 10 + (c.toNat - 48)) else none

/-- Parse a non-empty all-digits string (Python `int(...)` on the inputs the
source can produce; other `int()` inputs raise, modelled as `none`). -/
def parseNatStr (s : String) : Option Nat :=
  match s.data with
  | [] => none
  | l => digitsToNatAux l 0

/-- Python `int(...)` including a possible leading minus sign. -/
def parseIntStr (s : String) : Option Int :=
  match s.data with
  | [] => none
  | '-' :: rest =>
    match rest with
    | [] => none
    | l => (digitsToNatAux l 0).map (fun n => -(n : Int))
  | l => (digitsToNatAux l 0).map (fun n => (n : Int))

def splitCharAux (sep : Char) : List Char → List Char → List (List Char)
  | [], acc => [acc.reverse]
  | c :: cs, acc =>
    if c = sep then acc.reverse :: splitCharAux sep cs [] else splitCharAux sep cs (c :: acc)

/-- `datetime.strptime(s, "%H:%M")`, returning minutes since midnight. -/
def parseHHMM (s : String) : Option Nat :=
  match splitCharAux ':' s.data [] with
  | [h, m] =>
    match h with
    | [] => none
    | _ =>
      match m with
      | [] => none
      | _ =>
        match digitsToNatAux h 0, digitsToNatAux m 0 with
        | some hh, some mm =>
          if hh ≤ 23 ∧ mm ≤ 59 then some (hh * 60 + mm) else none
        | _, _ => none
  | _ => none

def digitChar (n : Nat) : Char := Char.ofNat (48 + n)

def pad2 (n : Nat) : String := ⟨[digitChar (n / 10), digitChar (n % 10)]⟩

/-- `slot.strftime("%H:%M")` for a slot `m` minutes after midnight (by
construction every slot satisfies `m < 1440`). -/
def formatHHMM (m : Nat) : String := pad2 (m / 60) ++ ":" ++ pad2 (m % 60)

/-! ## HostTimeAssigner (`cluster.py` lines 188–386) -/

/-- One iteration of the `while group_counts:` loop of `_interleave_groups`
(lines 305–312): walk the current keys once, appending each and
decrementing its count, dropping counts that hit exactly zero. -/
def roundStep (l : List (String × Int)) : List String × List (String × Int) :=
  (l.map Prod.fst, (l.map (fun p => (p.1, p.2 - 1))).filter (fun p => p.2 != 0))

/-- `_interleave_groups`, with fuel bounding the number of loop rounds.
The source loops forever when a count is ≤ 0 at entry (a count of `0` is
decremented to `-1`, never equals `0`, and is never removed); `none` marks
exactly those diverging runs.  When every count is ≥ 1, the number of
rounds equals the maximal count, which is below the fuel. -/
def interleaveAux : Nat → List (String × Int) → Option (List String)
  | _, [] => some []
  | 0, _ :: _ => none
  | fuel + 1, l =>
    (interleaveAux fuel (roundStep l).2).map (fun rest => (roundStep l).1 ++ rest)

def interleaveGroups (l : List (String × Int)) : Option (List String) :=
  interleaveAux ((l.map (fun p => p.2.toNat)).sum + 1) l

/-- State of `HostTimeAssigner`: `self._group_slots` (slots in minutes) and
`self._group_slot_index`, both keyed by group name in `groups` order. -/
structure HTA where
  groupSlots : List (String × List Nat)
  groupIdx : List (String × Nat)
deriving DecidableEq

def setKey {α : Type} (k : String) (v : α) : List (String × α) → List (String × α)
  | [] => []
  | p :: l => if p.1 = k then (p.1, v) :: l else p :: setKey k v l

/-- The `for slot, group in zip(all_slots, round_robin)` distribution
(lines 279–280), seen from one group: the slots paired with this group,
in ascending slot order. -/
def slotsFor (g : String) (slots : List Nat) (rr : List String) : List Nat :=
  ((slots.zip rr).filter (fun p => p.2 == g)).map Prod.fst

/-- `HostTimeAssigner.__init__` (lines 218–280). -/
def mkHTA (groups : List (String × Int)) (startS endS : String) : Except Err HTA :=
  match parseHHMM startS, parseHHMM endS with
  | some st, some en =>
    if en ≤ st then .error .timeOrder
    else
      let total : Int := (groups.map Prod.snd).sum
      if total = 0 then .error .noHosts
      else
        let totalMinutes : Int := (en : Int) - (st : Int)
        if totalMinutes < total then .error .windowTooSmall
        else
          let slots : List Nat :=
            if total ≤ 1 then [st]
            else
              let step := totalMinutes / (total - 1)
              (List.range total.toNat).map (fun i => st + i * step.toNat)
          match interleaveGroups groups with
          | none => .error .diverged
          | some rr =>
            .ok { groupSlots := groups.map (fun p => (p.1, slotsFor p.1 slots rr))
                  groupIdx := groups.map (fun p => (p.1, 0)) }
  | _, _ => .error .timeFormat

/-- `HostTimeAssigner.get_next_slot` (lines 314–355). -/
def HTA.getNextSlot (h : HTA) (g : String) : Except Err (String × HTA) :=
  match lookupKey g h.groupSlots with
  | none => .error .unknownGroup
  | some slots =>
    match lookupKey g h.groupIdx with
    | none => .error .unknownGroup
    | some idx =>
      match slots.get? idx with
      | none => .error .slotsExhausted
      | some slot => .ok (formatHHMM slot, { h with groupIdx := setKey g (idx + 1) h.groupIdx })

/-- `HostTimeAssigner.get_all_slots` (lines 357–386). -/
def HTA.getAllSlots (h : HTA) (g : String) : Except Err (List String) :=
  match lookupKey g h.groupSlots with
  | none => .error .unknownGroup
  | some slots => .ok (slots.map formatHHMM)

/-! ## Configuration and snapshot data model

The YAML configuration reached through `_get_config` dot-paths is modelled
as a structured record; `Option` captures a missing (or YAML-`null`) key,
which `_get_config` folds into the default.  Python truthiness of strings
(`""` falsy) is `isFalsyStr`/explicit `= ""` checks.  The observed Hetzner
snapshot is a list of servers and volumes; label strings that the source
parses (`internal_ip`) are modelled in parsed form (as `Nat` addresses),
restricting the model to label values that parse — the only ones the
claims concern. -/

structure VolCfg where
  name : String
  size : String
deriving DecidableEq

structure GroupCfg where
  type : Option String
  image : Option String
  num : Option Int
  is_control : Bool
  is_worker : Bool
  storage : Bool
  locations : Option (List String)
deriving DecidableEq

structure Cidr where
  base : Nat
  prefixLen : Nat
deriving DecidableEq

structure Config where
  nodes : List (String × GroupCfg)
  hasToken : Bool
  start_time : Option String
  end_time : Option String
  volumes : List VolCfg
  private_cidr : Option Cidr
deriving DecidableEq

structure HServer where
  id : Nat
  name : String
  labelImage : Option String
  labelServerType : Option String
  labelIsControl : Option String
  labelIsWorker : Option String
  labelInternalIp : Option Nat
  labelLocation : Option String
  publicIp : Option String
deriving DecidableEq

structure HVolume where
  id : Nat
  name : String
  size : Int
deriving DecidableEq

def isFalsyStr : Option String → Bool
  | none => true
  | some s => s == ""

/-- `group.replace('_', '-')`. -/
def replaceUnderscores (s : String) : String :=
  ⟨s.data.map (fun c => if c = '_' then '-' else c)⟩

/-- `f"{group.replace('_', '-')}-{host}"`. -/
def mkHostname (g : String) (i : Nat) : String :=
  replaceUnderscores g ++ "-" ++ toString i

/-- `str(vol_size).rstrip("Gg")`. -/
def rstripG (s : String) : String :=
  ⟨(s.data.reverse.dropWhile (fun c => c == 'G' || c == 'g')).reverse⟩

/-- `int(str(vol_size).rstrip("Gg"))`; `none` models the uncaught
`ValueError` of `int()` on a malformed size string. -/
def parseSizeGB (s : String) : Option Int := parseIntStr (rstripG s)

/-- First observed volume with the given name (the `for hv in …: if
hv.name == expected_name: matched = hv; break` scan). -/
def findVolumeByName (hvols : List HVolume) (n : String) : Option HVolume :=
  hvols.find? (fun hv => hv.name == n)

/-! ## Structural validation (`_validate_config_structure`, lines 649–696) -/

/-- The per-group loop: accumulates `has_control`, `has_worker`,
`control_count` in source order; aborts on a group without roles, without
a (truthy) `type`, or without `num`. -/
def checkGroupsStructure : (Bool × Bool × Int) → List (String × GroupCfg) →
    Except Err (Bool × Bool × Int)
  | acc, [] => .ok acc
  | (hc, hw, cc), (_, gc) :: rest =>
    if !(gc.is_control || gc.is_worker) then .error .roleMissing
    else
      let hc := hc || gc.is_control
      let cc := if gc.is_control then cc + gc.num.getD 0 else cc
      let hw := hw || gc.is_worker
      if isFalsyStr gc.type then .error .typeMissing
      else if gc.num = none then .error .numMissing
      else checkGroupsStructure (hc, hw, cc) rest

def checkVolumesStructure : List VolCfg → Except Err Unit
  | [] => .ok ()
  | v :: rest =>
    if v.name = "" then .error .volEntryName
    else if v.size = "" then .error .volEntrySize
    else checkVolumesStructure rest

def validateConfigStructure (cfg : Config) : Except Err Unit :=
  if cfg.nodes = [] then .error .nodesEmpty
  else if !cfg.hasToken then .error .tokenMissing
  else if isFalsyStr cfg.start_time || isFalsyStr cfg.end_time then .error .timesMissing
  else
    match checkGroupsStructure (false, false, 0) cfg.nodes with
    | .error e => .error e
    | .ok (hc, hw, cc) =>
      if !hc then .error .noControl
      else if !hw then .error .noWorker
      else if cc = 2 then .error .quorum
      else checkVolumesStructure cfg.volumes

/-- The aggregate control-plane replica count summed by the validation loop. -/
def controlCountList : List (String × GroupCfg) → Int
  | [] => 0
  | p :: l => (if p.2.is_control then p.2.num.getD 0 else 0) + controlCountList l

def controlCount (cfg : Config) : Int := controlCountList cfg.nodes

/-! ## Logic validation (`_validate_config_logic`, lines 698–721) -/

/-- `range(1, num_hosts + 1)` with `num_hosts = get(group, "num", 0)`. -/
def hostIdxRange (gc : GroupCfg) : List Nat :=
  (List.range (gc.num.getD 0).toNat).map (· + 1)

/-- The shrink check for one (hostname, declared volume) pair
(lines 710–721). -/
def checkVolShrink (hvols : List HVolume) (hostname : String) (v : VolCfg) :
    Except Err Unit :=
  match findVolumeByName hvols (hostname ++ "_" ++ v.name) with
  | none => .ok ()
  | some hv =>
    match parseSizeGB v.size with
    | none => .error .sizeParse
    | some gb => if gb < hv.size then .error .shrink else .ok ()

def checkVolsFor (hvols : List HVolume) (hostname : String) : List VolCfg → Except Err Unit
  | [] => .ok ()
  | v :: rest =>
    match checkVolShrink hvols hostname v with
    | .error e => .error e
    | .ok _ => checkVolsFor hvols hostname rest

def checkHostsFor (hvols : List HVolume) (vols : List VolCfg) (g : String) :
    List Nat → Except Err Unit
  | [] => .ok ()
  | i :: rest =>
    match checkVolsFor hvols (mkHostname g i) vols with
    | .error e => .error e
    | .ok _ => checkHostsFor hvols vols g rest

def checkLogicGroups (hvols : List HVolume) (vols : List VolCfg) :
    List (String × GroupCfg) → Except Err Unit
  | [] => .ok ()
  | (g, gc) :: rest =>
    if gc.storage then
      match checkHostsFor hvols vols g (hostIdxRange gc) with
      | .error e => .error e
      | .ok _ => checkLogicGroups hvols vols rest
    else checkLogicGroups hvols vols rest

def validateConfigLogic (cfg : Config) (hvols : List HVolume) : Except Err Unit :=
  checkLogicGroups hvols cfg.volumes cfg.nodes

/-! ## The inventory sink and the reconciliation pass
(`parse` / `_initialize_inventory` / `_prepare_group` / `_add_host` /
`_clean_hetzner_server` / `_set_orphan_volumes_for_cleanup`) -/

structure VolEntry where
  name : String
  size : String
  volId : Option Nat
  needs_create : Bool
  needs_resize : Bool
deriving DecidableEq

structure OrphanVol where
  volId : Nat
  name : String
  size : Int
deriving DecidableEq

inductive VarVal where
  | s (v : String)
  | b (v : Bool)
  | n (v : Nat)
  | vols (v : List VolEntry)
  | ovols (v : List OrphanVol)
deriving DecidableEq

/-- One operation issued to the Ansible inventory sink. -/
inductive InvOp where
  | addGroup (g : String)
  | addHost (h g : String)
  | addChild (parent child : String)
  | setVar (entity key : String) (v : VarVal)
deriving DecidableEq

/-- Pass state: chronological sink operations, the two allocators, the
time assigner, and the `InventoryModule` bookkeeping lists
(`_hetzner_servers_configured`, `_hetzner_volumes_configured`); the ids the
unmanaged-server sweep reported are recorded in `unmanagedIds`. -/
structure PassSt where
  ops : List InvOp
  nm : NetworkManager
  hta : HTA
  serversConfigured : List Nat
  volumesConfigured : List String
  unmanagedIds : List Nat
deriving DecidableEq

/-- `InventoryModule.__init__`: the instance lists a `parse` call starts
from (fresh instances start with both empty). -/
structure InstanceState where
  serversConfigured : List Nat
  volumesConfigured : List String
deriving DecidableEq

def freshInstance : InstanceState := ⟨[], []⟩

def addOp (st : PassSt) (op : InvOp) : PassSt := { st with ops := st.ops ++ [op] }

def labelTrue (o : Option String) : Bool := o == some "true"

/-- The match condition of `_search_fitting_server` (lines 613–647). -/
def fitsServer (s : HServer) (name tpe image : String) (ic iw : Bool) : Bool :=
  s.name == name && s.labelImage == some image && s.labelServerType == some tpe &&
  !(labelTrue s.labelIsControl && !ic) && !(labelTrue s.labelIsWorker && !iw) &&
  s.labelInternalIp.isSome

def searchFittingServer (servers : List HServer) (name tpe image : String) (ic iw : Bool) :
    Option HServer :=
  servers.find? (fun s => fitsServer s name tpe image ic iw)

/-- `_get_current_ip` (lines 530–552): the reachable public address, or an
`AnsibleError` when the server has no primary network. -/
def getCurrentIp (s : HServer) : Except Err String :=
  match s.publicIp with
  | some ip => .ok ip
  | none => .error .noPublicNet

/-- `server_type` lookup in `_prepare_group`: missing or empty aborts. -/
def effType (gc : GroupCfg) : Option String :=
  match gc.type with
  | none => none
  | some t => if t = "" then none else some t

/-- `image` lookup in `_prepare_group`: missing/null defaults to
`"debian-12"`, explicit empty aborts. -/
def effImage (gc : GroupCfg) : Option String :=
  match gc.image with
  | none => some "debian-12"
  | some im => if im = "" then none else some im

/-- The location block of `_add_host` (lines 872–878): a matched server's
recorded location is observed via `increment` (a missing or unknown
location label raises `ValueError`); a new host draws via `get_next`. -/
def assignLocation (found : Option HServer) (lm : ValueManager) :
    Except Err (String × ValueManager) :=
  match found with
  | some s =>
    match s.labelLocation with
    | none => .error .valueNotFound
    | some loc => (lm.increment loc).map (fun lm' => (loc, lm'))
  | none => lm.getNext

/-- The internal-ip block of `_add_host` (lines 880–889): for a matched
server re-reserve its recorded address, ignoring the already-reserved
error; a new host draws the next free address (`RuntimeError` on pool
exhaustion). -/
def assignInternalIp (found : Option HServer) (nm : NetworkManager) :
    Except Err (Nat × NetworkManager) :=
  match found with
  | some s =>
    match s.labelInternalIp with
    | none => .error .internalBug
    | some ip =>
      match nm.reserveIp ip with
      | .ok nm' => .ok (ip, nm')
      | .error _ => .ok (ip, nm)
  | none =>
    match nm.getNextIp with
    | none => .error .poolExhausted
    | some (ip, nm') => .ok (ip, nm')

/-- `ansible_host` assignment for a matched server (lines 901–902). -/
def reachOps (hostname : String) (found : Option HServer) : Except Err (List InvOp) :=
  match found with
  | some s =>
    match getCurrentIp s with
    | .error e => .error e
    | .ok pip => .ok [InvOp.setVar hostname "ansible_host" (.s pip)]
  | none => .ok []

/-- The volume loop of `_add_host` (lines 912–940): per declared volume,
compose the expected name, record it as managed, and build the plan entry;
`int()` on a malformed configured size raises (`sizeParse`), leaving the
names recorded so far. -/
def buildVolEntries (hvols : List HVolume) (hostname : String) :
    List VolCfg → List String → List VolEntry → (List String × List VolEntry) × Option Err
  | [], accNames, accEntries => ((accNames, accEntries), none)
  | v :: rest, accNames, accEntries =>
    let expected := hostname ++ "_" ++ v.name
    match findVolumeByName hvols expected with
    | none =>
      buildVolEntries hvols hostname rest (accNames ++ [expected])
        (accEntries ++ [⟨v.name, v.size, none, true, false⟩])
    | some m =>
      match parseSizeGB v.size with
      | none => ((accNames ++ [expected], accEntries), some .sizeParse)
      | some gb =>
        buildVolEntries hvols hostname rest (accNames ++ [expected])
          (accEntries ++ [⟨v.name, v.size, some m.id, false, decide (m.size ≠ gb)⟩])

/-- Everything `_add_host` (lines 852–940) does after the server search and
the `_hetzner_servers_configured` append: returned as deltas (sink ops,
new allocator states, newly managed volume names). -/
structure HostOut where
  ops : List InvOp
  lm : ValueManager
  nm : NetworkManager
  hta : HTA
  volNames : List String
deriving DecidableEq

def addHostRest (hvols : List HVolume) (volsCfg : List VolCfg) (gc : GroupCfg)
    (g hostname : String) (found : Option HServer)
    (lm : ValueManager) (nm : NetworkManager) (hta : HTA) : HostOut × Option Err :=
  match assignLocation found lm with
  | .error e => (⟨[], lm, nm, hta, []⟩, some e)
  | .ok (location, lm') =>
    match assignInternalIp found nm with
    | .error e => (⟨[], lm', nm, hta, []⟩, some e)
    | .ok (ip, nm') =>
      let ops := [InvOp.addHost hostname g,
                  .setVar hostname "create" (.b found.isNone),
                  .setVar hostname "location" (.s location),
                  .setVar hostname "internal_ip" (.n ip)]
      match hta.getNextSlot g with
      | .error e => (⟨ops, lm', nm', hta, []⟩, some e)
      | .ok (slot, hta') =>
        let ops := ops ++ [.setVar hostname "upgrade_time" (.s slot)]
        match reachOps hostname found with
        | .error e => (⟨ops, lm', nm', hta', []⟩, some e)
        | .ok hops =>
          let ops := ops ++ hops
          let ops := ops ++ (if gc.is_control then [InvOp.addChild "controlplane" hostname] else [])
          let ops := ops ++ (if gc.is_worker then [InvOp.addChild "worker" hostname] else [])
          let ops := ops ++ [InvOp.addChild "managed" hostname]
          if gc.storage then
            match buildVolEntries hvols hostname volsCfg [] [] with
            | ((names, _), some e) => (⟨ops, lm', nm', hta', names⟩, some e)
            | ((names, entries), none) =>
              (⟨ops ++ [.setVar hostname "cluster_volumes" (.vols entries)],
                lm', nm', hta', names⟩, none)
          else (⟨ops, lm', nm', hta', []⟩, none)

/-- The `self._hetzner_servers_configured.append(found_server.id)` step of
`_add_host` (line 874): performed exactly when a fitting server was found. -/
def claimSt (found : Option HServer) (st : PassSt) : PassSt :=
  match found with
  | some s => { st with serversConfigured := st.serversConfigured ++ [s.id] }
  | none => st

/-- Merge the deltas of one `_add_host` call into the pass state. -/
def mergeHostOut (st : PassSt) (out : HostOut) : PassSt :=
  { st with
    ops := st.ops ++ out.ops
    nm := out.nm
    hta := out.hta
    volumesConfigured := st.volumesConfigured ++ out.volNames }

/-- The `for host in range(1, num_hosts + 1)` loop of `_prepare_group`:
each iteration searches for a fitting server, claims it
(`_hetzner_servers_configured.append`), and runs the rest of `_add_host`. -/
def processHosts (servers : List HServer) (hvols : List HVolume) (volsCfg : List VolCfg)
    (g : String) (gc : GroupCfg) (tpe image : String) :
    List Nat → ValueManager → PassSt → PassSt × Option Err
  | [], _, st => (st, none)
  | i :: rest, lm, st =>
    let found := searchFittingServer servers (mkHostname g i) tpe image
      gc.is_control gc.is_worker
    let st1 := claimSt found st
    match addHostRest hvols volsCfg gc g (mkHostname g i) found lm st1.nm st1.hta with
    | (out, some e) => (mergeHostOut st1 out, some e)
    | (out, none) =>
      processHosts servers hvols volsCfg g gc tpe image rest out.lm (mergeHostOut st1 out)

/-- `_prepare_group` (lines 811–850). -/
def prepareGroup (servers : List HServer) (hvols : List HVolume) (volsCfg : List VolCfg)
    (g : String) (gc : GroupCfg) (st : PassSt) : PassSt × Option Err :=
  let st := addOp st (.addGroup g)
  let st := addOp st (.setVar g "is_control" (.b gc.is_control))
  let st := addOp st (.setVar g "is_worker" (.b gc.is_worker))
  match effType gc with
  | none => (st, some .typeMissing)
  | some tpe =>
    let st := addOp st (.setVar g "type" (.s tpe))
    match effImage gc with
    | none => (st, some .imageMissing)
    | some image =>
      let st := addOp st (.setVar g "image" (.s image))
      match gc.num with
      | none => (st, some .numMissing)
      | some num =>
        let lm := ValueManager.init (gc.locations.getD ["fsn1", "nbg1", "hel1"])
        processHosts servers hvols volsCfg g gc tpe image
          ((List.range num.toNat).map (· + 1)) lm st

/-- The `for group in self._config["nodes"]` loop of
`_initialize_inventory`. -/
def processGroups (servers : List HServer) (hvols : List HVolume) (volsCfg : List VolCfg) :
    List (String × GroupCfg) → PassSt → PassSt × Option Err
  | [], st => (st, none)
  | (g, gc) :: rest, st =>
    match prepareGroup servers hvols volsCfg g gc st with
    | (st', none) => processGroups servers hvols volsCfg rest st'
    | (st', some e) => (st', some e)

/-- Startup reservation of every `internal_ip` label (lines 750–758): a
conflict (or out-of-range address) raises `AnsibleError`. -/
def reserveLabelIps : List HServer → NetworkManager → NetworkManager × Option Err
  | [], nm => (nm, none)
  | s :: rest, nm =>
    match s.labelInternalIp with
    | none => reserveLabelIps rest nm
    | some ip =>
      match nm.reserveIp ip with
      | .ok nm' => reserveLabelIps rest nm'
      | .error _ => (nm, some .reserveConflict)

/-- `_clean_hetzner_server` (lines 794–809). -/
def cleanServers : List HServer → PassSt → PassSt × Option Err
  | [], st => (st, none)
  | s :: rest, st =>
    if s.id ∈ st.serversConfigured then cleanServers rest st
    else
      let newName := if s.name.startsWith "remove-" then s.name else "remove-" ++ s.name
      let st := { st with unmanagedIds := st.unmanagedIds ++ [s.id] }
      let st := addOp st (.addHost newName "unmanaged")
      let st := addOp st (.setVar newName "old_name" (.s s.name))
      match getCurrentIp s with
      | .error e => (st, some e)
      | .ok ip => cleanServers rest (addOp st (.setVar newName "ansible_host" (.s ip)))

def baseOps : List InvOp :=
  [.addGroup "controlplane", .addGroup "worker", .addGroup "managed", .addGroup "unmanaged"]

/-- The `groups` dict handed to `HostTimeAssigner` by
`_init_host_time_assigner` (lines 783–785). -/
def htaGroups (cfg : Config) : List (String × Int) :=
  cfg.nodes.map (fun p => (p.1, p.2.num.getD 0))

/-- Total number of desired hosts (`sum(groups.values())`). -/
def desiredTotal (cfg : Config) : Int := ((htaGroups cfg).map Prod.snd).sum

/-- The default private network `10.0.0.0/24` (`10.0.0.0 = 167772160`). -/
def defaultCidr : Cidr := ⟨167772160, 24⟩

/-- `_initialize_inventory` (lines 723–771), starting from the given
instance bookkeeping state. -/
def initInventory (cfg : Config) (servers : List HServer) (hvols : List HVolume)
    (init : InstanceState) : PassSt × Option Err :=
  let st : PassSt :=
    { ops := baseOps, nm := mkNetworkManager 0 24, hta := ⟨[], []⟩,
      serversConfigured := init.serversConfigured,
      volumesConfigured := init.volumesConfigured, unmanagedIds := [] }
  match cfg.start_time, cfg.end_time with
  | some sT, some eT =>
    match mkHTA (htaGroups cfg) sT eT with
    | .error e => (st, some e)
    | .ok hta =>
      let cid := cfg.private_cidr.getD defaultCidr
      match reserveLabelIps servers (mkNetworkManager cid.base cid.prefixLen) with
      | (_, some e) => ({ st with hta := hta }, some e)
      | (nm, none) =>
        let st := { st with hta := hta, nm := nm }
        match processGroups servers hvols cfg.volumes cfg.nodes st with
        | (st, some e) => (st, some e)
        | (st, none) =>
          let orphans := (hvols.filter (fun hv => !st.volumesConfigured.contains hv.name)).map
            (fun hv => OrphanVol.mk hv.id hv.name hv.size)
          let st := if orphans = [] then st
            else addOp st (.setVar "all" "orphan_volumes" (.ovols orphans))
          match cleanServers servers st with
          | (st, some e) => (st, some e)
          | (st, none) => (addOp st (.setVar "all" "ansible_user" (.s "root")), none)
  | _, _ => (st, some .timesMissing)

/-- The dummy pass state returned when the pass aborts before
`_initialize_inventory` ran: no sink operation was issued. -/
def dummySt (init : InstanceState) : PassSt :=
  { ops := [], nm := mkNetworkManager 0 24, hta := ⟨[], []⟩,
    serversConfigured := init.serversConfigured,
    volumesConfigured := init.volumesConfigured, unmanagedIds := [] }

/-- `InventoryModule.parse` (lines 576–607): structural validation, then
logic validation against the snapshot, then inventory construction.
`servers`/`hvols` stand for the snapshot `_load_hcloud_data` fetched. -/
def runParseFrom (init : InstanceState) (cfg : Config) (servers : List HServer)
    (hvols : List HVolume) : PassSt × Option Err :=
  match validateConfigStructure cfg with
  | .error e => (dummySt init, some e)
  | .ok _ =>
    match validateConfigLogic cfg hvols with
    | .error e => (dummySt init, some e)
    | .ok _ => initInventory cfg servers hvols init

/-- A full pass on a fresh `InventoryModule` instance. -/
def runParse (cfg : Config) (servers : List HServer) (hvols : List HVolume) :
    PassSt × Option Err :=
  runParseFrom freshInstance cfg servers hvols

/-- The hostnames one group contributes, in emission order. -/
def groupHostnames (p : String × GroupCfg) : List String :=
  ((List.range (p.2.num.getD 0).toNat).map (· + 1)).map (mkHostname p.1)

/-- All desired host names of a configuration, in emission order. -/
def desiredHostnames (cfg : Config) : List String :=
  cfg.nodes.flatMap groupHostnames

/-- The claim invariant threaded through the pass: the claimed server ids
are pairwise distinct, and every claimed id belongs to an observed server
whose name is one of the already-processed hostnames `P`. -/
def ClaimInv (servers : List HServer) (P : List String) (st : PassSt) : Prop :=
  st.serversConfigured.Nodup ∧
  ∀ sid ∈ st.serversConfigured, ∃ s ∈ servers, s.id = sid ∧ s.name ∈ P

/-! ## Concrete configurations used as counterexamples and witnesses -/

/-- A storage-enabled single-host group (control and worker, so the
configuration passes structural validation on its own). -/
def storageGroupW : GroupCfg := ⟨some "cx11", none, some 1, true, true, true, none⟩

/-- Configured volume `20G`, to be matched against a smaller observed
volume (a growth request). -/
def cfgGrowthW : Config :=
  { nodes := [("s", storageGroupW)]
    hasToken := true
    start_time := some "02:00"
    end_time := some "03:00"
    volumes := [⟨"data", "20G"⟩]
    private_cidr := none }

def hvolsGrowthW : List HVolume := [⟨1, "s-1_data", 10⟩]

/-- Configured volume `10G`, matched against a larger observed volume
(a shrink request). -/
def cfgShrinkW : Config :=
  { nodes := [("s", storageGroupW)]
    hasToken := true
    start_time := some "02:00"
    end_time := some "03:00"
    volumes := [⟨"data", "10G"⟩]
    private_cidr := none }

def hvolsShrinkW : List HVolume := [⟨1, "s-1_data", 20⟩]

/-- Aggregate control count 0: the only control-capable group declares
zero replicas. -/
def cfgQuorumW : Config :=
  { nodes := [("control", ⟨some "cx11", none, some 0, true, false, false, none⟩),
              ("worker", ⟨some "cx11", none, some 3, false, true, false, none⟩)]
    hasToken := true
    start_time := some "02:00"
    end_time := some "03:00"
    volumes := []
    private_cidr := none }

/-- Three desired hosts on a /30 network (two usable host addresses). -/
def cfgPoolW : Config :=
  { nodes := [("a", ⟨some "cx11", none, some 3, true, true, false, none⟩)]
    hasToken := true
    start_time := some "02:00"
    end_time := some "03:00"
    volumes := []
    private_cidr := some ⟨0, 30⟩ }

/-- 70 desired hosts in a 60-minute maintenance window. -/
def cfgWindowW : Config :=
  { nodes := [("a", ⟨some "cx11", none, some 70, true, true, false, none⟩)]
    hasToken := true
    start_time := some "02:00"
    end_time := some "03:00"
    volumes := []
    private_cidr := none }

/-- Groups `a_b` and `a-b` both produce hostname `a-b-1`. -/
def cfgDupW : Config :=
  { nodes := [("c", ⟨some "cx11", none, some 1, true, false, false, none⟩),
              ("a_b", ⟨some "cx11", none, some 1, false, true, false, none⟩),
              ("a-b", ⟨some "cx11", none, some 1, false, true, false, none⟩)]
    hasToken := true
    start_time := some "02:00"
    end_time := some "03:00"
    volumes := []
    private_cidr := none }

/-- An observed server named `a-b-1` that fits both worker groups of
`cfgDupW`. -/
def srvDupW : HServer :=
  ⟨7, "a-b-1", some "debian-12", some "cx11", none, some "true", some 167772165,
   some "fsn1", some "1.2.3.4"⟩

/-! ## Theorems -/

theorem findFreeIp_spec (assigned : List Nat) (hostMax : Nat) :
    ∀ fuel p ip, findFreeIp assigned hostMax p fuel = some ip →
      p ≤ ip ∧ ip ≤ hostMax ∧ ip ∉ assigned := by
  intro fuel
  induction fuel with
  | zero => intro p ip h; simp [findFreeIp] at h
  | succ n ih =>
    intro p ip h
    simp only [findFreeIp] at h
    split at h
    · exact absurd h (by simp)
    · split at h
      · obtain ⟨h1, h2, h3⟩ := ih (p + 1) ip h
        exact ⟨Nat.le_of_succ_le h1, h2, h3⟩
      · cases h
        refine ⟨Nat.le_refl _, ?_, by assumption⟩
        omega

theorem getNextIp_spec {nm : NetworkManager} {ip : Nat} {nm' : NetworkManager}
    (h : nm.getNextIp = some (ip, nm')) :
    nm.pos ≤ ip ∧ ip ≤ nm.hostMax ∧ ip ∉ nm.assigned ∧
      nm' = { nm with assigned := ip :: nm.assigned, pos := ip + 1 } := by
  unfold NetworkManager.getNextIp at h
  split at h
  · exact absurd h (by simp)
  · rename_i jp hfind
    obtain ⟨h1, h2, h3⟩ := findFreeIp_spec nm.assigned nm.hostMax _ _ _ hfind
    cases h
    exact ⟨h1, h2, h3, rfl⟩

theorem nextN_bounds (n : Nat) :
    ∀ nm : NetworkManager, ∀ x ∈ nm.nextN n, nm.pos ≤ x ∧ x ≤ nm.hostMax := by
  induction n with
  | zero => intro nm x hx; simp [NetworkManager.nextN] at hx
  | succ n ih =>
    intro nm x hx
    unfold NetworkManager.nextN at hx
    split at hx
    · simp at hx
    · rename_i ip nm' hip
      obtain ⟨h1, h2, h3, h4⟩ := getNextIp_spec hip
      rcases List.mem_cons.mp hx with rfl | hx'
      · exact ⟨h1, h2⟩
      · obtain ⟨ha, hb⟩ := ih nm' x hx'
        subst h4
        refine ⟨le_trans h1 (le_trans (Nat.le_succ ip) ha), hb⟩

theorem nextN_chain (n : Nat) :
    ∀ nm : NetworkManager, List.Chain' (· < ·) (nm.nextN n) := by
  induction n with
  | zero => intro nm; simp [NetworkManager.nextN]
  | succ n ih =>
    intro nm
    unfold NetworkManager.nextN
    split
    · simp
    · rename_i ip nm' hip
      obtain ⟨h1, h2, h3, h4⟩ := getNextIp_spec hip
      refine List.chain'_cons'.mpr ⟨?_, ih nm'⟩
      intro y hy
      have hmem : y ∈ nm'.nextN n := by
        cases hnn : nm'.nextN n with
        | nil => simp [hnn] at hy
        | cons a l => simp [hnn] at hy; simp [hnn, hy]
      have hb := (nextN_bounds n nm' y hmem).1
      have hp : nm'.pos = ip + 1 := by rw [h4]
      omega

theorem nextN_avoids_assigned (n : Nat) :
    ∀ nm : NetworkManager, ∀ ip ∈ nm.assigned, ip ∉ nm.nextN n := by
  induction n with
  | zero => intro nm ip _ h; simp [NetworkManager.nextN] at h
  | succ n ih =>
    intro nm ip hassigned h
    unfold NetworkManager.nextN at h
    split at h
    · simp at h
    · rename_i jp nm' hjp
      obtain ⟨h1, h2, h3, h4⟩ := getNextIp_spec hjp
      rcases List.mem_cons.mp h with rfl | h'
      · exact h3 hassigned
      · refine ih nm' ip ?_ h'
        subst h4
        exact List.mem_cons_of_mem _ hassigned

/-- Claim C6. For an `AddressAllocator` (`NetworkManager`) constructed on the
/24 network `base/24`: (i) repeated `next()` (`get_next_ip`) calls return
strictly ascending addresses, all inside the usable host range
`base+1 .. base+254` — in particular never the network address `base` nor
the broadcast address `base+255`; (ii) after `reserve(ip)` succeeds, no
sequence of `next()` calls ever returns `ip`; (iii) `reserve` fails on an
address `jp` outside the usable host range, and reserving `ip` a second
time fails. -/
theorem network_allocator_spec (base ip jp n : Nat) (nm' : NetworkManager)
    (hres : (mkNetworkManager base 24).reserveIp ip = .ok nm')
    (hout : jp < base + 1 ∨ base + 254 < jp) :
    (List.Chain' (· < ·) ((mkNetworkManager base 24).nextN n) ∧
      ∀ x ∈ (mkNetworkManager base 24).nextN n, base + 1 ≤ x ∧ x ≤ base + 254) ∧
    ip ∉ nm'.nextN n ∧
    ((mkNetworkManager base 24).reserveIp jp).isOk = false ∧
    (nm'.reserveIp ip).isOk = false := by
  have hmax : (mkNetworkManager base 24).hostMax = base + 254 := by
    simp [mkNetworkManager]
  have hmin : (mkNetworkManager base 24).hostMin = base + 1 := rfl
  have hnm' : nm' = { mkNetworkManager base 24 with assigned := [ip] } := by
    unfold NetworkManager.reserveIp at hres
    split at hres
    · exact absurd hres (by simp)
    · split at hres
      · exact absurd hres (by simp)
      · cases hres; rfl
  refine ⟨⟨nextN_chain n _, ?_⟩, ?_, ?_, ?_⟩
  · intro x hx
    have := nextN_bounds n _ x hx
    rw [hmax] at this
    exact ⟨this.1, this.2⟩
  · refine nextN_avoids_assigned n nm' ip ?_
    rw [hnm']; simp
  · unfold NetworkManager.reserveIp
    rw [if_pos]
    · rfl
    · rw [hmin, hmax]; exact hout
  · unfold NetworkManager.reserveIp
    rw [hnm']
    simp only [mkNetworkManager, List.mem_singleton]
    split
    · rfl
    · simp [Except.isOk, Except.toBool]

/-- Witness for `network_allocator_spec` at `base = 0`, `ip = 5`,
`jp = 0` (the network address), `n = 3`. -/
theorem network_allocator_spec_witness :
    (List.Chain' (· < ·) ((mkNetworkManager 0 24).nextN 3) ∧
      ∀ x ∈ (mkNetworkManager 0 24).nextN 3, 0 + 1 ≤ x ∧ x ≤ 0 + 254) ∧
    5 ∉ NetworkManager.nextN ⟨1, 254, [5], 1⟩ 3 ∧
    ((mkNetworkManager 0 24).reserveIp 0).isOk = false ∧
    (NetworkManager.reserveIp ⟨1, 254, [5], 1⟩ 5).isOk = false :=
  network_allocator_spec 0 5 0 3 ⟨1, 254, [5], 1⟩ (by decide) (by decide)

theorem firstDedupAux_sub (l : List String) :
    ∀ seen x, x ∈ firstDedupAux seen l → x ∈ l ∧ x ∉ seen := by
  induction l with
  | nil => intro seen x h; simp [firstDedupAux] at h
  | cons a l ih =>
    intro seen x h
    unfold firstDedupAux at h
    split at h
    · obtain ⟨h1, h2⟩ := ih seen x h
      exact ⟨List.mem_cons_of_mem _ h1, h2⟩
    · rcases List.mem_cons.mp h with rfl | h'
      · exact ⟨List.mem_cons_self _ _, by assumption⟩
      · obtain ⟨h1, h2⟩ := ih (a :: seen) x h'
        refine ⟨List.mem_cons_of_mem _ h1, fun hs => h2 (List.mem_cons_of_mem _ hs)⟩

theorem firstDedupAux_nodup (l : List String) :
    ∀ seen, (firstDedupAux seen l).Nodup := by
  induction l with
  | nil => intro seen; simp [firstDedupAux]
  | cons a l ih =>
    intro seen
    unfold firstDedupAux
    split
    · exact ih seen
    · refine List.nodup_cons.mpr ⟨?_, ih (a :: seen)⟩
      intro hmem
      exact (firstDedupAux_sub l (a :: seen) a hmem).2 (List.mem_cons_self _ _)

theorem firstDedup_nodup (l : List String) : (firstDedup l).Nodup :=
  firstDedupAux_nodup l []

theorem minItemGo_le (l : List (String × Nat)) :
    ∀ p, (minItemGo p l).2 ≤ p.2 := by
  induction l with
  | nil => intro p; exact Nat.le_refl _
  | cons q l ih =>
    intro p
    show (minItemGo (if q.2 < p.2 then q else p) l).2 ≤ p.2
    refine Nat.le_trans (ih _) ?_
    split
    · exact Nat.le_of_lt (by assumption)
    · exact Nat.le_refl _

theorem minItemGo_spec (l : List (String × Nat)) :
    ∀ p, ∃ l1 l2, p :: l = l1 ++ minItemGo p l :: l2 ∧
      (∀ x ∈ l1, (minItemGo p l).2 < x.2) ∧
      (∀ x ∈ l2, (minItemGo p l).2 ≤ x.2) := by
  induction l with
  | nil =>
    intro p
    exact ⟨[], [], rfl, by simp, by simp⟩
  | cons q l ih =>
    intro p
    by_cases hlt : q.2 < p.2
    · simp only [minItemGo, if_pos hlt]
      obtain ⟨l1, l2, heq, h1, h2⟩ := ih q
      refine ⟨p :: l1, l2, ?_, ?_, h2⟩
      · rw [List.cons_append, ← heq]
      · intro x hx
        rcases List.mem_cons.mp hx with rfl | hx'
        · exact Nat.lt_of_le_of_lt (minItemGo_le l q) hlt
        · exact h1 x hx'
    · simp only [minItemGo, if_neg hlt]
      have hge : p.2 ≤ q.2 := Nat.le_of_not_lt hlt
      obtain ⟨l1, l2, heq, h1, h2⟩ := ih p
      cases l1 with
      | nil =>
        simp only [List.nil_append] at heq
        have hm : minItemGo p l = p := (List.cons.injEq _ _ _ _).mp heq |>.1.symm
        have hl : l2 = l := ((List.cons.injEq _ _ _ _).mp heq).2.symm
        refine ⟨[], q :: l, ?_, by simp, ?_⟩
        · rw [hm, List.nil_append]
        · intro x hx
          rcases List.mem_cons.mp hx with rfl | hx'
          · rw [hm]; exact hge
          · exact h2 x (hl ▸ hx')
      | cons r t =>
        simp only [List.cons_append] at heq
        have hr : r = p := ((List.cons.injEq _ _ _ _).mp heq).1.symm
        have hl : l = t ++ minItemGo p l :: l2 := ((List.cons.injEq _ _ _ _).mp heq).2
        refine ⟨p :: q :: t, l2, ?_, ?_, h2⟩
        · simp only [List.cons_append]
          rw [← hl]
        · intro x hx
          have hp : (minItemGo p l).2 < p.2 := by
            have := h1 r (List.mem_cons_self _ _)
            rwa [hr] at this
          rcases List.mem_cons.mp hx with rfl | hx'
          · exact hp
          · rcases List.mem_cons.mp hx' with rfl | hx''
            · exact Nat.lt_of_lt_of_le hp hge
            · exact h1 x (List.mem_cons_of_mem _ hx'')

theorem minItem_spec {L : List (String × Nat)} {m : String × Nat}
    (h : minItem L = some m) :
    ∃ l1 l2, L = l1 ++ m :: l2 ∧ (∀ x ∈ l1, m.2 < x.2) ∧ (∀ x ∈ l2, m.2 ≤ x.2) := by
  cases L with
  | nil => simp [minItem] at h
  | cons p l =>
    simp only [minItem, Option.some.injEq] at h
    obtain ⟨l1, l2, heq, h1, h2⟩ := minItemGo_spec l p
    exact ⟨l1, l2, by rw [← h, ← heq], by rw [← h]; exact h1, by rw [← h]; exact h2⟩

theorem bumpFirst_append (l1 l2 : List (String × Nat)) (v : String) (c : Nat)
    (h : ∀ x ∈ l1, x.1 ≠ v) :
    bumpFirst v (l1 ++ (v, c) :: l2) = l1 ++ (v, c + 1) :: l2 := by
  induction l1 with
  | nil => simp [bumpFirst]
  | cons p t ih =>
    simp only [List.cons_append, bumpFirst]
    rw [if_neg (h p (List.mem_cons_self _ _))]
    show p :: bumpFirst v (t ++ (v, c) :: l2) = p :: (t ++ (v, c + 1) :: l2)
    rw [ih (fun x hx => h x (List.mem_cons_of_mem _ hx))]

/-- Core characterization of `get_next` on a state with pairwise-distinct
candidate keys (every state reachable from `init` has such keys): the
returned value is the first entry attaining the minimal count, and the new
state increments exactly that entry. -/
theorem getNext_split (vm : ValueManager) (v : String) (vm' : ValueManager)
    (hnd : (vm.counts.map Prod.fst).Nodup)
    (h : vm.getNext = .ok (v, vm')) :
    ∃ c l1 l2,
      vm.counts = l1 ++ (v, c) :: l2 ∧
      (∀ x ∈ l1, c < x.2) ∧
      (∀ x ∈ l2, c ≤ x.2) ∧
      vm'.counts = l1 ++ (v, c + 1) :: l2 ∧
      vm'.values = vm.values := by
  unfold ValueManager.getNext at h
  split at h
  · exact absurd h (by simp)
  · rename_i p hp
    obtain ⟨hv, hvm'⟩ : p.1 = v ∧ vm' = ⟨vm.values, bumpFirst p.1 vm.counts⟩ := by
      have h' := (Except.ok.injEq _ _).mp h
      exact ⟨congrArg Prod.fst h', (congrArg Prod.snd h').symm⟩
    obtain ⟨l1, l2, heq, h1, h2⟩ := minItem_spec hp
    have hpeta : p = (v, p.2) := by
      rw [← hv]
    have hnotin : ∀ x ∈ l1, x.1 ≠ v := by
      intro x hx hxv
      rw [heq, List.map_append] at hnd
      have h3 := (List.nodup_append.mp hnd).2.2
      refine h3 (List.mem_map_of_mem Prod.fst hx) ?_
      rw [List.map_cons, hxv, ← hv]
      exact List.mem_cons_self _ _
    refine ⟨p.2, l1, l2, by rw [heq, ← hpeta], h1, h2, ?_, by rw [hvm']⟩
    rw [hvm', heq, hpeta]
    exact bumpFirst_append l1 l2 v p.2 hnotin

/-- Claim C8. `get_next` returns the candidate with the smallest usage count,
breaking ties by declaration order (all entries before it in the counter
list have strictly larger counts, all entries after it have larger-or-equal
counts), and increments exactly that candidate's counter; on a fresh
allocator over `["a","b","c"]` four `next()` calls yield `a, b, c, a`, and
`observe("a")` (`increment`) on a fresh allocator followed by `next()`
yields `b`. -/
theorem value_manager_next_spec (vm : ValueManager) (v : String) (vm' : ValueManager)
    (hnd : (vm.counts.map Prod.fst).Nodup)
    (h : vm.getNext = .ok (v, vm')) :
    (∃ c l1 l2,
      vm.counts = l1 ++ (v, c) :: l2 ∧
      (∀ x ∈ l1, c < x.2) ∧
      (∀ x ∈ l2, c ≤ x.2) ∧
      vm'.counts = l1 ++ (v, c + 1) :: l2 ∧
      vm'.values = vm.values) ∧
    nextSeq (ValueManager.init ["a", "b", "c"]) 4 = ["a", "b", "c", "a"] ∧
    (ValueManager.init ["a", "b", "c"]).increment "a" =
      .ok ⟨["a", "b", "c"], [("a", 1), ("b", 0), ("c", 0)]⟩ ∧
    (ValueManager.getNext ⟨["a", "b", "c"], [("a", 1), ("b", 0), ("c", 0)]⟩).map Prod.fst =
      .ok "b" :=
  ⟨getNext_split vm v vm' hnd h, by decide, by decide, by decide⟩

/-- Witness for `value_manager_next_spec` on the fresh allocator over
`["a","b","c"]`. -/
theorem value_manager_next_spec_witness :
    (∃ c l1 l2,
      (ValueManager.init ["a", "b", "c"]).counts = l1 ++ ("a", c) :: l2 ∧
      (∀ x ∈ l1, c < x.2) ∧
      (∀ x ∈ l2, c ≤ x.2) ∧
      (ValueManager.mk ["a", "b", "c"] [("a", 1), ("b", 0), ("c", 0)]).counts =
        l1 ++ ("a", c + 1) :: l2 ∧
      (ValueManager.mk ["a", "b", "c"] [("a", 1), ("b", 0), ("c", 0)]).values =
        (ValueManager.init ["a", "b", "c"]).values) ∧
    nextSeq (ValueManager.init ["a", "b", "c"]) 4 = ["a", "b", "c", "a"] ∧
    (ValueManager.init ["a", "b", "c"]).increment "a" =
      .ok ⟨["a", "b", "c"], [("a", 1), ("b", 0), ("c", 0)]⟩ ∧
    (ValueManager.getNext ⟨["a", "b", "c"], [("a", 1), ("b", 0), ("c", 0)]⟩).map Prod.fst =
      .ok "b" :=
  value_manager_next_spec (ValueManager.init ["a", "b", "c"]) "a"
    ⟨["a", "b", "c"], [("a", 1), ("b", 0), ("c", 0)]⟩ (by decide) (by decide)

theorem balM_step (vm : ValueManager) (v : String) (vm' : ValueManager)
    (hnd : (vm.counts.map Prod.fst).Nodup)
    (hbal : BalM vm.counts)
    (h : vm.getNext = .ok (v, vm')) :
    BalM vm'.counts ∧ vm'.counts.map Prod.fst = vm.counts.map Prod.fst := by
  obtain ⟨c, l1, l2, heq, h1, h2, heq', _⟩ := getNext_split vm v vm' hnd h
  obtain ⟨q, hq⟩ := hbal
  have hmemq : ∀ x ∈ vm.counts, c ≤ x.2 := by
    intro x hx
    rw [heq] at hx
    rcases List.mem_append.mp hx with hx1 | hx2
    · exact Nat.le_of_lt (h1 x hx1)
    · rcases List.mem_cons.mp hx2 with rfl | hx3
      · exact Nat.le_refl _
      · exact h2 x hx3
  have hcself : c = q ∨ c = q + 1 := by
    have : (v, c) ∈ vm.counts := by rw [heq]; simp
    exact hq _ this
  constructor
  · by_cases hex : ∃ x ∈ vm.counts, x.2 = q
    · obtain ⟨x0, hx0, hx0q⟩ := hex
      have hcq : c = q := by
        have := hmemq x0 hx0
        rcases hcself with hc | hc
        · exact hc
        · omega
      refine ⟨q, ?_⟩
      intro p hp
      rw [heq'] at hp
      rcases List.mem_append.mp hp with hp1 | hp2
      · exact hq p (by rw [heq]; exact List.mem_append.mpr (Or.inl hp1))
      · rcases List.mem_cons.mp hp2 with rfl | hp3
        · right; simp [hcq]
        · exact hq p (by rw [heq]; exact List.mem_append.mpr (Or.inr (List.mem_cons_of_mem _ hp3)))
    · push_neg at hex
      have hall : ∀ x ∈ vm.counts, x.2 = q + 1 := by
        intro x hx
        rcases hq x hx with h' | h'
        · exact absurd h' (hex x hx)
        · exact h'
      refine ⟨q + 1, ?_⟩
      intro p hp
      rw [heq'] at hp
      rcases List.mem_append.mp hp with hp1 | hp2
      · exact Or.inl (hall p (by rw [heq]; exact List.mem_append.mpr (Or.inl hp1)))
      · rcases List.mem_cons.mp hp2 with rfl | hp3
        · right
          have : c = q + 1 := hall (v, c) (by rw [heq]; simp)
          simp [this]
        · exact Or.inl (hall p (by rw [heq]; exact List.mem_append.mpr (Or.inr (List.mem_cons_of_mem _ hp3))))
  · rw [heq, heq']
    simp

theorem nextIter_inv (n : Nat) :
    ∀ vm : ValueManager, (vm.counts.map Prod.fst).Nodup → BalM vm.counts →
      BalM (nextIterVM vm n).counts := by
  induction n with
  | zero => intro vm _ hbal; exact hbal
  | succ n ih =>
    intro vm hnd hbal
    unfold nextIterVM
    split
    · exact hbal
    · rename_i v vm' h
      obtain ⟨hbal', hkeys⟩ := balM_step vm v vm' hnd hbal h
      exact ih vm' (by rw [hkeys]; exact hnd) hbal'

/-- Claim C9. After any finite sequence of `next()` calls alone starting from
a fresh `FairValueAllocator` over a non-empty candidate list, the usage
counters of any two candidates differ by at most one. -/
theorem value_manager_fairness (vs : List String) (hne : vs ≠ []) (n : Nat) :
    ∀ p ∈ (nextIterVM (ValueManager.init vs) n).counts,
      ∀ q ∈ (nextIterVM (ValueManager.init vs) n).counts, p.2 ≤ q.2 + 1 := by
  have hnd : ((ValueManager.init vs).counts.map Prod.fst).Nodup := by
    unfold ValueManager.init
    simp only [List.map_map]
    have : (Prod.fst ∘ fun v => (v, 0)) = fun v : String => v := rfl
    rw [this, List.map_id']
    exact firstDedup_nodup vs
  have hbal : BalM (ValueManager.init vs).counts := by
    refine ⟨0, ?_⟩
    intro p hp
    unfold ValueManager.init at hp
    simp only [List.mem_map] at hp
    obtain ⟨a, _, rfl⟩ := hp
    exact Or.inl rfl
  obtain ⟨q0, hq0⟩ := nextIter_inv n (ValueManager.init vs) hnd hbal
  intro p hp r hr
  rcases hq0 p hp with h1 | h1 <;> rcases hq0 r hr with h2 | h2 <;> omega

/-- Witness for `value_manager_fairness`: `["a","b"]`, three `next()` calls. -/
theorem value_manager_fairness_witness :
    (nextIterVM (ValueManager.init ["a", "b"]) 3).counts = [("a", 2), ("b", 1)] ∧
    (("a", 2) : String × Nat).2 ≤ (("b", 1) : String × Nat).2 + 1 :=
  ⟨by decide,
   value_manager_fairness ["a", "b"] (by decide) 3 ("a", 2) (by decide) ("b", 1) (by decide)⟩

/-- Claim C7. `HostTimeAssigner({"control": 3, "worker_small": 2,
"worker_big": 1}, "02:00", "03:00")` assigns control the slot queue
`["02:00","02:36","03:00"]`, worker_small `["02:12","02:48"]` and
worker_big `["02:24"]` (step `60 // 5 = 12` minutes, groups interleaved in
declared order). -/
theorem slot_allocator_example :
    ∃ h, mkHTA [("control", 3), ("worker_small", 2), ("worker_big", 1)] "02:00" "03:00" =
        .ok h ∧
      h.getAllSlots "control" = .ok ["02:00", "02:36", "03:00"] ∧
      h.getAllSlots "worker_small" = .ok ["02:12", "02:48"] ∧
      h.getAllSlots "worker_big" = .ok ["02:24"] := by
  refine ⟨_, rfl, ?_, ?_, ?_⟩ <;> rfl

/-! ## Structural-validation theorems -/

theorem checkGroupsStructure_ok (l : List (String × GroupCfg))
    (hgood : ∀ p ∈ l, (p.2.is_control || p.2.is_worker) = true ∧
             isFalsyStr p.2.type = false ∧ p.2.num ≠ none) :
    ∀ hc hw cc, checkGroupsStructure (hc, hw, cc) l =
      .ok (hc || l.any (fun p => p.2.is_control),
           hw || l.any (fun p => p.2.is_worker),
           cc + controlCountList l) := by
  induction l with
  | nil =>
    intro hc hw cc
    simp [checkGroupsStructure, controlCountList]
  | cons p rest ih =>
    intro hc hw cc
    obtain ⟨h1, h2, h3⟩ := hgood p (List.mem_cons_self _ _)
    have ih' := ih (fun q hq => hgood q (List.mem_cons_of_mem _ hq))
    obtain ⟨pn, pg⟩ := p
    have h1' : (pg.is_control || pg.is_worker) = true := h1
    have h2' : isFalsyStr pg.type = false := h2
    have h3' : pg.num ≠ none := h3
    simp only [checkGroupsStructure, h1', Bool.not_true, Bool.false_eq_true, if_false, h2']
    rw [if_neg h3']
    rw [ih']
    simp only [List.any_cons, controlCountList, Except.ok.injEq, Prod.mk.injEq]
    refine ⟨?_, ?_, ?_⟩
    · rw [Bool.or_assoc]
    · rw [Bool.or_assoc]
    · by_cases hic : pg.is_control = true
      · simp only [if_pos hic]; omega
      · simp only [if_neg hic]; omega

theorem checkVolumesStructure_ok (l : List VolCfg)
    (h : ∀ v ∈ l, v.name ≠ "" ∧ v.size ≠ "") :
    checkVolumesStructure l = .ok () := by
  induction l with
  | nil => rfl
  | cons v rest ih =>
    obtain ⟨h1, h2⟩ := h v (List.mem_cons_self _ _)
    simp only [checkVolumesStructure, if_neg h1, if_neg h2]
    exact ih (fun w hw => h w (List.mem_cons_of_mem _ hw))

/-- Claim C10. On a configuration passing every other structural check,
structural validation rejects on the quorum rule exactly when the
aggregate control-plane replica count is 2 — and passes otherwise, in
particular when the aggregate control count is 0. -/
theorem quorum_iff_two (cfg : Config)
    (h1 : cfg.nodes ≠ [])
    (h2 : cfg.hasToken = true)
    (h3 : isFalsyStr cfg.start_time = false)
    (h4 : isFalsyStr cfg.end_time = false)
    (h5 : ∀ p ∈ cfg.nodes, (p.2.is_control || p.2.is_worker) = true ∧
          isFalsyStr p.2.type = false ∧ p.2.num ≠ none)
    (h6 : cfg.nodes.any (fun p => p.2.is_control) = true)
    (h7 : cfg.nodes.any (fun p => p.2.is_worker) = true)
    (h8 : ∀ v ∈ cfg.volumes, v.name ≠ "" ∧ v.size ≠ "") :
    (validateConfigStructure cfg = .error .quorum ↔ controlCount cfg = 2) ∧
    (validateConfigStructure cfg = .ok () ↔ controlCount cfg ≠ 2) := by
  have hgr := checkGroupsStructure_ok cfg.nodes h5 false false 0
  have hvol : checkVolumesStructure cfg.volumes = .ok () := checkVolumesStructure_ok _ h8
  unfold validateConfigStructure
  rw [if_neg h1, h2, h3, h4]
  simp only [Bool.not_true, Bool.false_eq_true, if_false, Bool.or_self]
  rw [hgr, h6, h7]
  simp only [Bool.false_or, Bool.not_true, Bool.false_eq_true, if_false]
  by_cases hc2 : controlCount cfg = 2
  · have : (0 : Int) + controlCountList cfg.nodes = 2 := by
      simp only [controlCount] at hc2; omega
    rw [if_pos this]
    simp [hc2]
  · have : ¬ ((0 : Int) + controlCountList cfg.nodes = 2) := by
      simp only [controlCount] at hc2; omega
    rw [if_neg this, hvol]
    simp [hc2]

/-- Witness for `quorum_iff_two`: all-other-checks-passing configuration
whose aggregate control count is 0 (zero replicas in the only
control-capable group) — it passes structural validation. -/
theorem quorum_iff_two_witness :
    ((validateConfigStructure cfgQuorumW = .error .quorum ↔ controlCount cfgQuorumW = 2) ∧
     (validateConfigStructure cfgQuorumW = .ok () ↔ controlCount cfgQuorumW ≠ 2)) ∧
    validateConfigStructure cfgQuorumW = .ok () :=
  ⟨quorum_iff_two cfgQuorumW (by decide) (by decide) (by decide) (by decide)
    (by decide) (by decide) (by decide) (by decide), by decide⟩

/-! ## Logic-validation theorems (volume shrink) -/

theorem checkVolShrink_shrink (hvols : List HVolume) (hostname : String) (v : VolCfg)
    (hv : HVolume) (n : Int)
    (hfind : findVolumeByName hvols (hostname ++ "_" ++ v.name) = some hv)
    (hparse : parseSizeGB v.size = some n) (hlt : n < hv.size) :
    checkVolShrink hvols hostname v = .error .shrink := by
  unfold checkVolShrink
  rw [hfind, hparse]
  simp [hlt]

theorem checkVolsFor_error (hvols : List HVolume) (hostname : String) (v : VolCfg)
    (he : ∃ e, checkVolShrink hvols hostname v = .error e) :
    ∀ vols : List VolCfg, v ∈ vols →
      ∃ e, checkVolsFor hvols hostname vols = .error e := by
  intro vols
  induction vols with
  | nil => intro hv; simp at hv
  | cons w rest ih =>
    intro hv
    cases hcs : checkVolShrink hvols hostname w with
    | error e => exact ⟨e, by simp only [checkVolsFor, hcs]⟩
    | ok u =>
      rcases List.mem_cons.mp hv with rfl | hv'
      · obtain ⟨e, he'⟩ := he
        rw [he'] at hcs
        cases hcs
      · obtain ⟨e, hrec⟩ := ih hv'
        exact ⟨e, by simp only [checkVolsFor, hcs]; exact hrec⟩

theorem checkHostsFor_error (hvols : List HVolume) (vols : List VolCfg) (g : String)
    (i : Nat)
    (he : ∃ e, checkVolsFor hvols (mkHostname g i) vols = .error e) :
    ∀ idxs : List Nat, i ∈ idxs →
      ∃ e, checkHostsFor hvols vols g idxs = .error e := by
  intro idxs
  induction idxs with
  | nil => intro hi; simp at hi
  | cons j rest ih =>
    intro hi
    cases hcs : checkVolsFor hvols (mkHostname g j) vols with
    | error e => exact ⟨e, by simp only [checkHostsFor, hcs]⟩
    | ok u =>
      rcases List.mem_cons.mp hi with rfl | hi'
      · obtain ⟨e, he'⟩ := he
        rw [he'] at hcs
        cases hcs
      · obtain ⟨e, hrec⟩ := ih hi'
        exact ⟨e, by simp only [checkHostsFor, hcs]; exact hrec⟩

theorem checkLogicGroups_error (hvols : List HVolume) (vols : List VolCfg)
    (g : String) (gc : GroupCfg) (hstor : gc.storage = true)
    (he : ∃ e, checkHostsFor hvols vols g (hostIdxRange gc) = .error e) :
    ∀ nodes : List (String × GroupCfg), (g, gc) ∈ nodes →
      ∃ e, checkLogicGroups hvols vols nodes = .error e := by
  intro nodes
  induction nodes with
  | nil => intro hmem; simp at hmem
  | cons p rest ih =>
    intro hmem
    obtain ⟨pn, pg⟩ := p
    rcases List.mem_cons.mp hmem with heq | hmem'
    · obtain ⟨e, he'⟩ := he
      have hg : pn = g ∧ pg = gc := by
        exact ⟨congrArg Prod.fst heq.symm, congrArg Prod.snd heq.symm⟩
      obtain ⟨rfl, rfl⟩ := hg
      refine ⟨e, ?_⟩
      simp only [checkLogicGroups, hstor, if_true, he']
    · by_cases hst : pg.storage = true
      · cases hcs : checkHostsFor hvols vols pn (hostIdxRange pg) with
        | error e =>
          exact ⟨e, by simp only [checkLogicGroups, hst, if_true, hcs]⟩
        | ok u =>
          obtain ⟨e, hrec⟩ := ih hmem'
          exact ⟨e, by simp only [checkLogicGroups, hst, if_true, hcs]; exact hrec⟩
      · obtain ⟨e, hrec⟩ := ih hmem'
        refine ⟨e, ?_⟩
        simp only [checkLogicGroups, hst, if_false]
        exact hrec

theorem mem_hostIdxRange (gc : GroupCfg) (i : Nat)
    (hi1 : 1 ≤ i) (hi2 : (i : Int) ≤ gc.num.getD 0) :
    i ∈ hostIdxRange gc := by
  unfold hostIdxRange
  rw [List.mem_map]
  refine ⟨i - 1, ?_, by omega⟩
  rw [List.mem_range]
  omega

/-- Shared core: a configured size strictly below the (first) observed
volume of the composed name makes `_validate_config_logic` abort. -/
theorem validateConfigLogic_shrink (cfg : Config) (hvols : List HVolume)
    (g : String) (gc : GroupCfg) (i : Nat) (v : VolCfg) (hv : HVolume) (n : Int)
    (hmem : (g, gc) ∈ cfg.nodes) (hstor : gc.storage = true)
    (hi1 : 1 ≤ i) (hi2 : (i : Int) ≤ gc.num.getD 0)
    (hvmem : v ∈ cfg.volumes)
    (hfind : findVolumeByName hvols (mkHostname g i ++ "_" ++ v.name) = some hv)
    (hparse : parseSizeGB v.size = some n)
    (hlt : n < hv.size) :
    ∃ e, validateConfigLogic cfg hvols = .error e := by
  have hshrink := checkVolShrink_shrink hvols (mkHostname g i) v hv n hfind hparse hlt
  have hvols' := checkVolsFor_error hvols (mkHostname g i) v ⟨_, hshrink⟩ cfg.volumes hvmem
  have hhosts := checkHostsFor_error hvols cfg.volumes g i hvols' (hostIdxRange gc)
    (mem_hostIdxRange gc i hi1 hi2)
  exact checkLogicGroups_error hvols cfg.volumes g gc hstor hhosts cfg.nodes hmem

/-- Claim C3, amended. During logic validation, for every storage-enabled
group and every declared volume, if an observed volume with the expected
composed name exists and the *configured* size is strictly smaller than
that observed volume's size (a shrink request), the run aborts.  (The
claim as stated — abort when the observed size is smaller than the
configured size — is refuted by `growth_not_aborted_cex`: that direction
is growth, handled later as `needs_resize`.) -/
theorem shrink_direction_aborts (cfg : Config) (hvols : List HVolume)
    (g : String) (gc : GroupCfg) (i : Nat) (v : VolCfg) (hv : HVolume) (n : Int)
    (hmem : (g, gc) ∈ cfg.nodes) (hstor : gc.storage = true)
    (hi1 : 1 ≤ i) (hi2 : (i : Int) ≤ gc.num.getD 0)
    (hvmem : v ∈ cfg.volumes)
    (hfind : findVolumeByName hvols (mkHostname g i ++ "_" ++ v.name) = some hv)
    (hparse : parseSizeGB v.size = some n)
    (hlt : n < hv.size) :
    ∃ e, validateConfigLogic cfg hvols = .error e :=
  validateConfigLogic_shrink cfg hvols g gc i v hv n hmem hstor hi1 hi2 hvmem
    hfind hparse hlt

/-- Counterexample to C3 as stated: the observed volume (10 GB) is
strictly smaller than the configured size (20 GB), yet logic validation
passes and the whole run completes without aborting — the mismatch is
growth, not shrink. -/
theorem growth_not_aborted_cex :
    (∃ hv ∈ hvolsGrowthW, hv.name = mkHostname "s" 1 ++ "_" ++ "data" ∧
        hv.size < 20 ∧ parseSizeGB "20G" = some 20) ∧
    validateConfigLogic cfgGrowthW hvolsGrowthW = .ok () ∧
    (runParse cfgGrowthW [] hvolsGrowthW).2 = none := by decide

/-- Witness for `shrink_direction_aborts`: configured `10G` against an
observed 20 GB volume named `s-1_data`. -/
theorem shrink_direction_aborts_witness :
    ∃ e, validateConfigLogic cfgShrinkW hvolsShrinkW = .error e :=
  shrink_direction_aborts cfgShrinkW hvolsShrinkW "s" storageGroupW 1 ⟨"data", "10G"⟩
    ⟨1, "s-1_data", 20⟩ 10 (by decide) (by decide) (by decide) (by decide) (by decide)
    (by decide) (by decide) (by decide)

/-- Claim C1. If structural validation passes and some storage-enabled group,
host index and declared volume meet an observed volume of the composed
name `<hostname>_<volume name>` whose size exceeds the parsed configured
size, then the whole `parse` run aborts during logic validation: the
returned error is the logic-validation error and the emitted operation
list is empty — no group/host registration happened and no allocator state
was ever built (the result is exactly the pre-inventory `dummySt`). -/
theorem shrink_aborts_run (cfg : Config) (servers : List HServer) (hvols : List HVolume)
    (g : String) (gc : GroupCfg) (i : Nat) (v : VolCfg) (hv : HVolume) (n : Int)
    (hstruct : validateConfigStructure cfg = .ok ())
    (hmem : (g, gc) ∈ cfg.nodes) (hstor : gc.storage = true)
    (hi1 : 1 ≤ i) (hi2 : (i : Int) ≤ gc.num.getD 0)
    (hvmem : v ∈ cfg.volumes)
    (hfind : findVolumeByName hvols (mkHostname g i ++ "_" ++ v.name) = some hv)
    (hparse : parseSizeGB v.size = some n)
    (hlt : n < hv.size) :
    ∃ e, validateConfigLogic cfg hvols = .error e ∧
      runParse cfg servers hvols = (dummySt freshInstance, some e) ∧
      (runParse cfg servers hvols).1.ops = [] := by
  obtain ⟨e, he⟩ := validateConfigLogic_shrink cfg hvols g gc i v hv n hmem hstor
    hi1 hi2 hvmem hfind hparse hlt
  refine ⟨e, he, ?_, ?_⟩
  · unfold runParse runParseFrom
    rw [hstruct, he]
  · unfold runParse runParseFrom
    rw [hstruct, he]
    rfl

/-- Witness for `shrink_aborts_run` on `cfgShrinkW`. -/
theorem shrink_aborts_run_witness :
    ∃ e, validateConfigLogic cfgShrinkW hvolsShrinkW = .error e ∧
      runParse cfgShrinkW [] hvolsShrinkW = (dummySt freshInstance, some e) ∧
      (runParse cfgShrinkW [] hvolsShrinkW).1.ops = [] :=
  shrink_aborts_run cfgShrinkW [] hvolsShrinkW "s" storageGroupW 1 ⟨"data", "10G"⟩
    ⟨1, "s-1_data", 20⟩ 10 (by decide) (by decide) (by decide) (by decide) (by decide)
    (by decide) (by decide) (by decide) (by decide)

/-! ## Determinism of the pass -/

/-- Claim C2. Two reconciliation passes on fresh `InventoryModule` instances
with the same desired configuration and the same observed snapshot produce
identical output: the same sink operations in the same order, the same
error status, and the same bookkeeping state.  (The embedded pass is a
pure function of the instance start state, the configuration and the
snapshot; freshness of both instances is the only hypothesis.) -/
theorem pass_deterministic (s1 s2 : InstanceState) (cfg : Config)
    (servers : List HServer) (hvols : List HVolume)
    (h1 : s1 = freshInstance) (h2 : s2 = freshInstance) :
    runParseFrom s1 cfg servers hvols = runParseFrom s2 cfg servers hvols := by
  rw [h1, h2]

/-- Witness for `pass_deterministic` on a concrete configuration and
snapshot. -/
theorem pass_deterministic_witness :
    runParseFrom freshInstance cfgGrowthW [] hvolsGrowthW =
      runParseFrom freshInstance cfgGrowthW [] hvolsGrowthW :=
  pass_deterministic freshInstance freshInstance cfgGrowthW [] hvolsGrowthW rfl rfl

/-! ## Pre-allocation bound checks (C4) -/

/-- Claim C4, amended. Only the slot-pool bound is checked before any
allocation: when the total desired host count exceeds the maintenance
window's minutes, the `HostTimeAssigner` constructor aborts the run before
any host is emitted or any address allocated — the sink has seen exactly
the four base-group registrations and no `add_host`.  The address-pool
bound, by contrast, is *not* pre-checked: `address_pool_not_prechecked_cex`
exhibits a run that exceeds the address pool, emits two hosts, and only
then fails with pool exhaustion. -/
theorem slot_pool_prechecked (cfg : Config) (servers : List HServer) (hvols : List HVolume)
    (sT eT : String) (stM enM : Nat)
    (hstruct : validateConfigStructure cfg = .ok ())
    (hlogic : validateConfigLogic cfg hvols = .ok ())
    (hsT : cfg.start_time = some sT) (heT : cfg.end_time = some eT)
    (hps : parseHHMM sT = some stM) (hpe : parseHHMM eT = some enM)
    (hlt : stM < enM)
    (hnz : desiredTotal cfg ≠ 0)
    (hover : (enM : Int) - (stM : Int) < desiredTotal cfg) :
    (runParse cfg servers hvols).2 = some .windowTooSmall ∧
    (runParse cfg servers hvols).1.ops = baseOps ∧
    ∀ h g, InvOp.addHost h g ∉ (runParse cfg servers hvols).1.ops := by
  have hnz' : ((htaGroups cfg).map Prod.snd).sum ≠ (0 : Int) := hnz
  have hover' : (enM : Int) - (stM : Int) < ((htaGroups cfg).map Prod.snd).sum := hover
  have hmk : mkHTA (htaGroups cfg) sT eT = .error .windowTooSmall := by
    simp only [mkHTA, hps, hpe]
    rw [if_neg (Nat.not_le.mpr hlt), if_neg hnz', if_pos hover']
  have hrun : runParse cfg servers hvols =
      ({ ops := baseOps, nm := mkNetworkManager 0 24, hta := ⟨[], []⟩,
         serversConfigured := [], volumesConfigured := [], unmanagedIds := [] },
       some .windowTooSmall) := by
    unfold runParse runParseFrom
    simp only [hstruct, hlogic, initInventory, hsT, heT, hmk]
    rfl
  refine ⟨by rw [hrun], by rw [hrun], ?_⟩
  intro h g
  rw [hrun]
  simp [baseOps]

/-- Counterexample to C4 as stated: `cfgPoolW` desires 3 hosts on a /30
network with 2 usable host addresses.  The claim says such a topology
aborts before the first allocation; in fact the run emits hosts `a-1` and
`a-2` and only then fails with pool exhaustion, partway through emission
— no address-pool bound is checked up front. -/
theorem address_pool_not_prechecked_cex :
    desiredTotal cfgPoolW = 3 ∧
    (runParse cfgPoolW [] []).2 = some .poolExhausted ∧
    InvOp.addHost "a-1" "a" ∈ (runParse cfgPoolW [] []).1.ops ∧
    InvOp.addHost "a-2" "a" ∈ (runParse cfgPoolW [] []).1.ops := by decide

/-- Witness for `slot_pool_prechecked`: 70 desired hosts in a 60-minute
window. -/
theorem slot_pool_prechecked_witness :
    (runParse cfgWindowW [] []).2 = some .windowTooSmall ∧
    (runParse cfgWindowW [] []).1.ops = baseOps ∧
    ∀ h g, InvOp.addHost h g ∉ (runParse cfgWindowW [] []).1.ops :=
  slot_pool_prechecked cfgWindowW [] [] "02:00" "03:00" 120 180 (by decide) (by decide)
    rfl rfl (by decide) (by decide) (by decide) (by decide) (by decide)

/-! ## Claim uniqueness (C5) -/

theorem ClaimInv_mono {servers : List HServer} {P Q : List String} {st : PassSt}
    (h : ClaimInv servers P st) (hPQ : ∀ x ∈ P, x ∈ Q) : ClaimInv servers Q st :=
  ⟨h.1, fun sid hsid =>
    let ⟨s, hs1, hs2, hs3⟩ := h.2 sid hsid
    ⟨s, hs1, hs2, hPQ _ hs3⟩⟩

theorem ClaimInv_ops {servers : List HServer} {P : List String} {st st' : PassSt}
    (h : ClaimInv servers P st) (he : st'.serversConfigured = st.serversConfigured) :
    ClaimInv servers P st' := by
  unfold ClaimInv
  rw [he]
  exact h

theorem searchFitting_name {servers : List HServer} {name tpe image : String}
    {ic iw : Bool} {s : HServer}
    (h : searchFittingServer servers name tpe image ic iw = some s) :
    s ∈ servers ∧ s.name = name := by
  unfold searchFittingServer at h
  refine ⟨List.mem_of_find?_eq_some h, ?_⟩
  have hf := List.find?_some h
  unfold fitsServer at hf
  simp only [Bool.and_eq_true, beq_iff_eq] at hf
  exact hf.1.1.1.1.1

theorem claimSt_serversConfigured_none {st : PassSt} : (claimSt none st) = st := rfl

theorem mergeHostOut_serversConfigured (st : PassSt) (out : HostOut) :
    (mergeHostOut st out).serversConfigured = st.serversConfigured := rfl

theorem mergeHostOut_unmanagedIds (st : PassSt) (out : HostOut) :
    (mergeHostOut st out).unmanagedIds = st.unmanagedIds := rfl

theorem claimSt_unmanagedIds (found : Option HServer) (st : PassSt) :
    (claimSt found st).unmanagedIds = st.unmanagedIds := by
  cases found <;> rfl

theorem addOp_serversConfigured (st : PassSt) (op : InvOp) :
    (addOp st op).serversConfigured = st.serversConfigured := rfl

theorem addOp_unmanagedIds (st : PassSt) (op : InvOp) :
    (addOp st op).unmanagedIds = st.unmanagedIds := rfl

/-- Claiming the server found for a hostname not yet processed preserves
the claim invariant, extending the processed set by that hostname.  Needs
distinct observed server ids: two list entries with the same id would
otherwise allow a second claim of an id via a different name. -/
theorem claimSt_inv (servers : List HServer)
    (hids : (servers.map HServer.id).Nodup)
    (name tpe image : String) (ic iw : Bool) (st : PassSt) (P : List String)
    (hInv : ClaimInv servers P st) (hfreshN : name ∉ P) :
    ClaimInv servers (P ++ [name])
      (claimSt (searchFittingServer servers name tpe image ic iw) st) := by
  cases hfound : searchFittingServer servers name tpe image ic iw with
  | none =>
    simp only [claimSt]
    exact ClaimInv_mono hInv (fun x hx => List.mem_append.mpr (Or.inl hx))
  | some s =>
    obtain ⟨hsmem, hsname⟩ := searchFitting_name hfound
    obtain ⟨hnd, hall⟩ := hInv
    have hnotin : s.id ∉ st.serversConfigured := by
      intro hid
      obtain ⟨s', hs'mem, hs'id, hs'name⟩ := hall s.id hid
      have heqs : s' = s := List.inj_on_of_nodup_map hids hs'mem hsmem hs'id
      rw [heqs, hsname] at hs'name
      exact hfreshN hs'name
    constructor
    · simp only [claimSt]
      rw [List.nodup_append]
      refine ⟨hnd, List.nodup_singleton _, ?_⟩
      intro a ha ha'
      rw [List.mem_singleton] at ha'
      subst ha'
      exact hnotin ha
    · intro sid hsid
      simp only [claimSt] at hsid
      rcases List.mem_append.mp hsid with h1 | h1
      · obtain ⟨s', a, b, c⟩ := hall sid h1
        exact ⟨s', a, b, List.mem_append.mpr (Or.inl c)⟩
      · rw [List.mem_singleton] at h1
        subst h1
        refine ⟨s, hsmem, rfl, ?_⟩
        rw [hsname]
        exact List.mem_append.mpr (Or.inr (List.mem_singleton.mpr rfl))

theorem processHosts_inv (servers : List HServer) (hvols : List HVolume)
    (volsCfg : List VolCfg) (g : String) (gc : GroupCfg) (tpe image : String)
    (hids : (servers.map HServer.id).Nodup) :
    ∀ (idxs : List Nat) (lm : ValueManager) (st : PassSt) (P : List String),
      ClaimInv servers P st →
      (idxs.map (mkHostname g)).Nodup →
      (∀ i ∈ idxs, mkHostname g i ∉ P) →
      ∃ Q, ClaimInv servers Q
          (processHosts servers hvols volsCfg g gc tpe image idxs lm st).1 ∧
        ∀ x ∈ Q, x ∈ P ∨ x ∈ idxs.map (mkHostname g) := by
  intro idxs
  induction idxs with
  | nil =>
    intro lm st P hInv _ _
    exact ⟨P, hInv, fun x hx => Or.inl hx⟩
  | cons i rest ih =>
    intro lm st P hInv hnd hfresh
    have hclaim := claimSt_inv servers hids (mkHostname g i) tpe image
      gc.is_control gc.is_worker st P hInv (hfresh i (List.mem_cons_self _ _))
    simp only [List.map_cons, List.nodup_cons] at hnd
    obtain ⟨hhead, htail⟩ := hnd
    have hfresh' : ∀ j ∈ rest, mkHostname g j ∉ P ++ [mkHostname g i] := by
      intro j hj hmem
      rcases List.mem_append.mp hmem with h1 | h1
      · exact hfresh j (List.mem_cons_of_mem _ hj) h1
      · rw [List.mem_singleton] at h1
        exact hhead (h1 ▸ List.mem_map_of_mem (mkHostname g) hj)
    simp only [processHosts]
    cases hres : addHostRest hvols volsCfg gc g (mkHostname g i)
        (searchFittingServer servers (mkHostname g i) tpe image gc.is_control gc.is_worker)
        lm (claimSt (searchFittingServer servers (mkHostname g i) tpe image
          gc.is_control gc.is_worker) st).nm
        (claimSt (searchFittingServer servers (mkHostname g i) tpe image
          gc.is_control gc.is_worker) st).hta with
    | mk out oe =>
      cases oe with
      | some e =>
        refine ⟨P ++ [mkHostname g i],
          ClaimInv_ops hclaim (mergeHostOut_serversConfigured _ _), ?_⟩
        intro x hx
        rcases List.mem_append.mp hx with h1 | h1
        · exact Or.inl h1
        · rw [List.mem_singleton] at h1
          subst h1
          exact Or.inr (by simp)
      | none =>
        obtain ⟨Q, hQ1, hQ2⟩ := ih out.lm
          (mergeHostOut (claimSt (searchFittingServer servers (mkHostname g i) tpe image
            gc.is_control gc.is_worker) st) out)
          (P ++ [mkHostname g i])
          (ClaimInv_ops hclaim (mergeHostOut_serversConfigured _ _)) htail hfresh'
        refine ⟨Q, hQ1, ?_⟩
        intro x hx
        rcases hQ2 x hx with h1 | h1
        · rcases List.mem_append.mp h1 with h2 | h2
          · exact Or.inl h2
          · rw [List.mem_singleton] at h2
            subst h2
            exact Or.inr (by simp)
        · refine Or.inr ?_
          rw [List.map_cons]
          exact List.mem_cons_of_mem _ h1

theorem prepareGroup_inv (servers : List HServer) (hvols : List HVolume)
    (volsCfg : List VolCfg) (hids : (servers.map HServer.id).Nodup)
    (g : String) (gc : GroupCfg) (st : PassSt) (P : List String)
    (hInv : ClaimInv servers P st)
    (hnd : (groupHostnames (g, gc)).Nodup)
    (hfresh : ∀ h ∈ groupHostnames (g, gc), h ∉ P) :
    ∃ Q, ClaimInv servers Q (prepareGroup servers hvols volsCfg g gc st).1 ∧
      ∀ x ∈ Q, x ∈ P ∨ x ∈ groupHostnames (g, gc) := by
  unfold prepareGroup
  cases heff : effType gc with
  | none => exact ⟨P, ClaimInv_ops hInv rfl, fun x hx => Or.inl hx⟩
  | some tpe =>
    cases himg : effImage gc with
    | none => exact ⟨P, ClaimInv_ops hInv rfl, fun x hx => Or.inl hx⟩
    | some image =>
      cases hnum : gc.num with
      | none => exact ⟨P, ClaimInv_ops hInv rfl, fun x hx => Or.inl hx⟩
      | some num =>
        have hgeq : ((List.range num.toNat).map (· + 1)).map (mkHostname g) =
            groupHostnames (g, gc) := by
          simp [groupHostnames, hnum]
        obtain ⟨Q, hQ1, hQ2⟩ := processHosts_inv servers hvols volsCfg g gc tpe image hids
          ((List.range num.toNat).map (· + 1))
          (ValueManager.init (gc.locations.getD ["fsn1", "nbg1", "hel1"]))
          (addOp (addOp (addOp (addOp (addOp st (.addGroup g))
            (.setVar g "is_control" (.b gc.is_control)))
            (.setVar g "is_worker" (.b gc.is_worker)))
            (.setVar g "type" (.s tpe)))
            (.setVar g "image" (.s image)))
          P (ClaimInv_ops hInv rfl) (hgeq ▸ hnd) (fun i hi => hfresh _ (hgeq ▸ List.mem_map_of_mem (mkHostname g) hi))
        refine ⟨Q, hQ1, ?_⟩
        intro x hx
        rcases hQ2 x hx with h1 | h1
        · exact Or.inl h1
        · exact Or.inr (hgeq ▸ h1)

theorem processGroups_inv (servers : List HServer) (hvols : List HVolume)
    (volsCfg : List VolCfg) (hids : (servers.map HServer.id).Nodup) :
    ∀ (nodes : List (String × GroupCfg)) (st : PassSt) (P : List String),
      ClaimInv servers P st →
      (nodes.flatMap groupHostnames).Nodup →
      (∀ x ∈ P, x ∉ nodes.flatMap groupHostnames) →
      ∃ Q, ClaimInv servers Q (processGroups servers hvols volsCfg nodes st).1 ∧
        ∀ x ∈ Q, x ∈ P ∨ x ∈ nodes.flatMap groupHostnames := by
  intro nodes
  induction nodes with
  | nil =>
    intro st P hInv _ _
    exact ⟨P, hInv, fun x hx => Or.inl hx⟩
  | cons p rest ih =>
    intro st P hInv hnd hdisj
    obtain ⟨pn, pg⟩ := p
    rw [List.flatMap_cons] at hnd
    rw [List.nodup_append] at hnd
    obtain ⟨hnd1, hnd2, hnddisj⟩ := hnd
    have hfresh1 : ∀ h ∈ groupHostnames (pn, pg), h ∉ P := by
      intro h hh hP
      refine hdisj h hP ?_
      rw [List.flatMap_cons]
      exact List.mem_append.mpr (Or.inl hh)
    obtain ⟨Q, hQ1, hQ2⟩ := prepareGroup_inv servers hvols volsCfg hids pn pg st P
      hInv hnd1 hfresh1
    simp only [processGroups]
    split
    · rename_i st' heq
      -- successful group: recurse
      rw [heq] at hQ1
      have hside : ∀ x ∈ Q, x ∉ rest.flatMap groupHostnames := by
        intro x hxQ hxRest
        rcases hQ2 x hxQ with h2 | h2
        · refine hdisj x h2 ?_
          rw [List.flatMap_cons]
          exact List.mem_append.mpr (Or.inr hxRest)
        · exact hnddisj h2 hxRest
      obtain ⟨R, hR1, hR2⟩ := ih st' Q hQ1 hnd2 hside
      refine ⟨R, hR1, ?_⟩
      intro x hx
      rcases hR2 x hx with h1 | h1
      · rcases hQ2 x h1 with h2 | h2
        · exact Or.inl h2
        · refine Or.inr ?_
          rw [List.flatMap_cons]
          exact List.mem_append.mpr (Or.inl h2)
      · refine Or.inr ?_
        rw [List.flatMap_cons]
        exact List.mem_append.mpr (Or.inr h1)
    · rename_i st' e heq
      rw [heq] at hQ1
      refine ⟨Q, hQ1, ?_⟩
      intro x hx
      rcases hQ2 x hx with h1 | h1
      · exact Or.inl h1
      · refine Or.inr ?_
        rw [List.flatMap_cons]
        exact List.mem_append.mpr (Or.inl h1)

theorem processHosts_unmanagedIds (servers : List HServer) (hvols : List HVolume)
    (volsCfg : List VolCfg) (g : String) (gc : GroupCfg) (tpe image : String) :
    ∀ (idxs : List Nat) (lm : ValueManager) (st : PassSt),
      (processHosts servers hvols volsCfg g gc tpe image idxs lm st).1.unmanagedIds =
        st.unmanagedIds := by
  intro idxs
  induction idxs with
  | nil => intro lm st; rfl
  | cons i rest ih =>
    intro lm st
    simp only [processHosts]
    split
    · rename_i out e heq
      rw [mergeHostOut_unmanagedIds, claimSt_unmanagedIds]
    · rename_i out heq
      rw [ih, mergeHostOut_unmanagedIds, claimSt_unmanagedIds]

theorem prepareGroup_unmanagedIds (servers : List HServer) (hvols : List HVolume)
    (volsCfg : List VolCfg) (g : String) (gc : GroupCfg) (st : PassSt) :
    (prepareGroup servers hvols volsCfg g gc st).1.unmanagedIds = st.unmanagedIds := by
  unfold prepareGroup
  cases effType gc with
  | none => rfl
  | some tpe =>
    cases effImage gc with
    | none => rfl
    | some image =>
      cases gc.num with
      | none => rfl
      | some num =>
        rw [processHosts_unmanagedIds]
        rfl

theorem processGroups_unmanagedIds (servers : List HServer) (hvols : List HVolume)
    (volsCfg : List VolCfg) :
    ∀ (nodes : List (String × GroupCfg)) (st : PassSt),
      (processGroups servers hvols volsCfg nodes st).1.unmanagedIds = st.unmanagedIds := by
  intro nodes
  induction nodes with
  | nil => intro st; rfl
  | cons p rest ih =>
    intro st
    obtain ⟨pn, pg⟩ := p
    simp only [processGroups]
    split
    · rename_i st' heq
      rw [ih]
      have := prepareGroup_unmanagedIds servers hvols volsCfg pn pg st
      rw [heq] at this
      exact this
    · rename_i st' e heq
      have := prepareGroup_unmanagedIds servers hvols volsCfg pn pg st
      rw [heq] at this
      exact this

theorem cleanServers_spec :
    ∀ (servers : List HServer) (st : PassSt),
      (cleanServers servers st).1.serversConfigured = st.serversConfigured ∧
      ∀ x ∈ (cleanServers servers st).1.unmanagedIds,
        x ∈ st.unmanagedIds ∨ x ∉ st.serversConfigured := by
  intro servers
  induction servers with
  | nil => intro st; exact ⟨rfl, fun x hx => Or.inl hx⟩
  | cons s rest ih =>
    intro st
    simp only [cleanServers]
    split
    · exact ih st
    · rename_i hnotc
      split
      · rename_i e heq
        refine ⟨rfl, ?_⟩
        intro x hx
        simp only [addOp, addOp_unmanagedIds] at hx
        rcases List.mem_append.mp hx with h1 | h1
        · exact Or.inl h1
        · rw [List.mem_singleton] at h1
          subst h1
          exact Or.inr hnotc
      · rename_i ip heq
        obtain ⟨hc, hu⟩ := ih (addOp (addOp (addOp
            { st with unmanagedIds := st.unmanagedIds ++ [s.id] }
            (.addHost (if s.name.startsWith "remove-" then s.name else "remove-" ++ s.name)
              "unmanaged"))
            (.setVar (if s.name.startsWith "remove-" then s.name else "remove-" ++ s.name)
              "old_name" (.s s.name)))
            (.setVar (if s.name.startsWith "remove-" then s.name else "remove-" ++ s.name)
              "ansible_host" (.s ip)))
        refine ⟨hc, ?_⟩
        intro x hx
        rcases hu x hx with h1 | h1
        · simp only [addOp] at h1
          rcases List.mem_append.mp h1 with h2 | h2
          · exact Or.inl h2
          · rw [List.mem_singleton] at h2
            subst h2
            exact Or.inr hnotc
        · exact Or.inr h1

/-- The orphan-report / unmanaged-sweep / default-user tail of
`_initialize_inventory`, abstracted over the state after the group loop:
it preserves the claimed-id list, and every id it reports unmanaged was
not claimed. -/
theorem finishTail (servers : List HServer) (st3 : PassSt) (Q : List String)
    (hQ : ClaimInv servers Q st3) (hu : st3.unmanagedIds = []) :
    (match cleanServers servers st3 with
     | (st, some e) => (st, some e)
     | (st, none) =>
       (addOp st (InvOp.setVar "all" "ansible_user" (VarVal.s "root")),
        none)).1.serversConfigured.Nodup ∧
    ∀ sid ∈ (match cleanServers servers st3 with
             | (st, some e) => (st, some e)
             | (st, none) =>
               (addOp st (InvOp.setVar "all" "ansible_user" (VarVal.s "root")),
                none)).1.serversConfigured,
      sid ∉ (match cleanServers servers st3 with
             | (st, some e) => (st, some e)
             | (st, none) =>
               (addOp st (InvOp.setVar "all" "ansible_user" (VarVal.s "root")),
                none)).1.unmanagedIds := by
  obtain ⟨hc, huf⟩ := cleanServers_spec servers st3
  split
  · rename_i stf e heqc
    rw [heqc] at hc huf
    constructor
    · show stf.serversConfigured.Nodup
      rw [show stf.serversConfigured = st3.serversConfigured from hc]
      exact hQ.1
    · intro sid hsid hmem
      rcases huf sid hmem with h1 | h1
      · rw [hu] at h1
        exact absurd h1 (List.not_mem_nil sid)
      · refine h1 ?_
        rw [← show stf.serversConfigured = st3.serversConfigured from hc]
        exact hsid
  · rename_i stf heqc
    rw [heqc] at hc huf
    constructor
    · show (addOp stf _).serversConfigured.Nodup
      rw [addOp_serversConfigured,
        show stf.serversConfigured = st3.serversConfigured from hc]
      exact hQ.1
    · intro sid hsid hmem
      rw [show (addOp stf (InvOp.setVar "all" "ansible_user" (VarVal.s "root"))).unmanagedIds
        = stf.unmanagedIds from rfl] at hmem
      rcases huf sid hmem with h1 | h1
      · rw [hu] at h1
        exact absurd h1 (List.not_mem_nil sid)
      · refine h1 ?_
        rw [← show stf.serversConfigured = st3.serversConfigured from hc]
        exact hsid

/-- Claim C5, amended. On any pass whose desired hostnames are pairwise
distinct (the source composes `<group with '_'→'-'>-<index>` and never
checks collisions — `duplicate_claim_cex` shows the claim fails without
this) and whose observed snapshot has pairwise-distinct server ids, each
observed server is claimed by at most one desired host instance (the
claimed-id list has no duplicates), and a claimed server is never also
reported by the unmanaged-server sweep of the same pass. -/
theorem unique_claim_of_distinct_hostnames (cfg : Config) (servers : List HServer)
    (hvols : List HVolume)
    (hnames : (desiredHostnames cfg).Nodup)
    (hids : (servers.map HServer.id).Nodup)
    (hok : (runParse cfg servers hvols).2 = none) :
    (runParse cfg servers hvols).1.serversConfigured.Nodup ∧
    ∀ sid ∈ (runParse cfg servers hvols).1.serversConfigured,
      sid ∉ (runParse cfg servers hvols).1.unmanagedIds := by
  clear hok
  unfold runParse runParseFrom
  split
  · exact ⟨List.nodup_nil, fun sid hsid => absurd hsid (List.not_mem_nil sid)⟩
  · split
    · exact ⟨List.nodup_nil, fun sid hsid => absurd hsid (List.not_mem_nil sid)⟩
    · unfold initInventory
      split
      · rename_i sT eT
        split
        · exact ⟨List.nodup_nil, fun sid hsid => absurd hsid (List.not_mem_nil sid)⟩
        · rename_i hta hmkeq
          dsimp only
          split
          · exact ⟨List.nodup_nil, fun sid hsid => absurd hsid (List.not_mem_nil sid)⟩
          · rename_i nm hreseq
            obtain ⟨Q, hQ, _⟩ := processGroups_inv servers hvols cfg.volumes hids cfg.nodes
              { ops := baseOps, nm := nm, hta := hta,
                serversConfigured := freshInstance.serversConfigured,
                volumesConfigured := freshInstance.volumesConfigured, unmanagedIds := [] }
              [] ⟨List.nodup_nil, fun sid hsid => absurd hsid (List.not_mem_nil sid)⟩
              hnames (fun x hx => absurd hx (List.not_mem_nil x))
            have hu := processGroups_unmanagedIds servers hvols cfg.volumes cfg.nodes
              { ops := baseOps, nm := nm, hta := hta,
                serversConfigured := freshInstance.serversConfigured,
                volumesConfigured := freshInstance.volumesConfigured, unmanagedIds := [] }
            split
            · rename_i st' e heqpg
              rw [heqpg] at hQ hu
              refine ⟨hQ.1, ?_⟩
              intro sid hsid hmem
              rw [show ((st', some e) : PassSt × Option Err).1.unmanagedIds
                = st'.unmanagedIds from rfl, hu] at hmem
              exact absurd hmem (List.not_mem_nil sid)
            · rename_i st' heqpg
              rw [heqpg] at hQ hu
              refine finishTail servers _ Q ?_ ?_
              · refine ClaimInv_ops hQ ?_
                split <;> rfl
              · have h1 : ∀ op, (addOp st' op).unmanagedIds = st'.unmanagedIds :=
                  fun op => rfl
                split
                · exact hu
                · rw [h1]; exact hu
      · exact ⟨List.nodup_nil, fun sid hsid => absurd hsid (List.not_mem_nil sid)⟩

/-- Counterexample to C5 as stated: groups `a_b` and `a-b` both compose
hostname `a-b-1`, so the single observed server with that name is claimed
by two desired host instances; the pass still succeeds, and its claimed-id
list is `[7, 7]`. -/
theorem duplicate_claim_cex :
    (runParse cfgDupW [srvDupW] []).2 = none ∧
    (runParse cfgDupW [srvDupW] []).1.serversConfigured = [7, 7] ∧
    ¬ (runParse cfgDupW [srvDupW] []).1.serversConfigured.Nodup := by decide

/-- Witness for `unique_claim_of_distinct_hostnames` on a successful
concrete pass. -/
theorem unique_claim_of_distinct_hostnames_witness :
    (runParse cfgGrowthW [] hvolsGrowthW).1.serversConfigured.Nodup ∧
    ∀ sid ∈ (runParse cfgGrowthW [] hvolsGrowthW).1.serversConfigured,
      sid ∉ (runParse cfgGrowthW [] hvolsGrowthW).1.unmanagedIds :=
  unique_claim_of_distinct_hostnames cfgGrowthW [] hvolsGrowthW
    (by decide) (by decide) (by decide)
